/-
  Verification development for the nextjs-otel instrumentation layer.

  Shallow embedding of the header redaction and JWT claim extraction,
  body capture / classification / codec, request/response stream taps,
  ignored-host capture policy, fetch interception control flow and the
  lambda context-propagation bridge, translated from the repository
  sources `src/http.ts`, `src/fetch-interceptor.ts`,
  `src/enhanced-undici.ts` and `src/lambda/propation.ts`.

  JavaScript runtime values are modelled as follows: strings are Lean
  `String` (ASCII case conversion matches `toLowerCase` on the header
  and content-type data the claims range over), byte buffers are
  `List Nat` of byte values, JSON data is the inductive `JsonValue`
  (numbers keep their literal text, so the exotic float re-rendering of
  `JSON.stringify`/`String()` on numbers is represented by the literal),
  and `undefined`/`null` propagation of optional chaining is `Option`.
-/
import Mathlib

set_option maxRecDepth 10000

/-! ## JavaScript string primitives -/

/-- Model of `s.includes(sub)` of JavaScript: substring containment. -/
def strIncludes (s sub : String) : Bool :=
  decide (sub.data <:+: s.data)

/-- Splitter for JavaScript `s.split(sep)` with a one-character separator
(every separator occurrence cuts, so leading/trailing/adjacent separators
produce empty segments, as in JS). -/
def jsSplitAux (sep : Char) : List Char → List Char → List (List Char)
  | [], acc => [acc.reverse]
  | c :: rest, acc =>
    if c = sep then acc.reverse :: jsSplitAux sep rest []
    else jsSplitAux sep rest (c :: acc)

/-- JavaScript `s.split(sep)` for a one-character separator. -/
def jsSplit (sep : Char) (s : String) : List String :=
  (jsSplitAux sep s.data []).map (fun l => ⟨l⟩)

/-! ## UTF-8 encoding and decoding (`Buffer.from(string)` / `buf.toString('utf8')`) -/

/-- UTF-8 encoding of one unicode scalar value, as a list of byte values. -/
def utf8EncodeChar (c : Char) : List Nat :=
  let n := c.toNat
  if n < 0x80 then [n]
  else if n < 0x800 then [0xC0 + n / 64, 0x80 + n % 64]
  else if n < 0x10000 then [0xE0 + n / 4096, 0x80 + (n / 64) % 64, 0x80 + n % 64]
  else [0xF0 + n / 262144, 0x80 + (n / 4096) % 64, 0x80 + (n / 64) % 64, 0x80 + n % 64]

/-- Model of `Buffer.from(s)`: UTF-8 encode a string into bytes. -/
def utf8Encode (s : String) : List Nat :=
  (s.data.map utf8EncodeChar).flatten

/-- The U+FFFD replacement character emitted for invalid byte sequences. -/
def replChar : Char := Char.ofNat 0xFFFD

/-- Is `b` a UTF-8 continuation byte (`10xxxxxx`)? -/
def isCont (b : Nat) : Bool := 0x80 ≤ b && b < 0xC0

/-- Fuel-based UTF-8 decoder; invalid sequences yield U+FFFD like
`buf.toString('utf8')` in Node (one replacement per rejected lead byte). -/
def utf8DecodeAux : Nat → List Nat → List Char
  | 0, _ => []
  | _ + 1, [] => []
  | fuel + 1, b :: rest =>
    if b < 0x80 then Char.ofNat b :: utf8DecodeAux fuel rest
    else if b < 0xC2 then replChar :: utf8DecodeAux fuel rest
    else if b < 0xE0 then
      match rest with
      | b2 :: r2 =>
        if isCont b2 then
          Char.ofNat ((b - 0xC0) * 64 + (b2 - 0x80)) :: utf8DecodeAux fuel r2
        else replChar :: utf8DecodeAux fuel rest
      | [] => [replChar]
    else if b < 0xF0 then
      match rest with
      | b2 :: b3 :: r3 =>
        if isCont b2 && isCont b3 then
          let cp := (b - 0xE0) * 4096 + (b2 - 0x80) * 64 + (b3 - 0x80)
          if 0x800 ≤ cp && ¬ (0xD800 ≤ cp && cp < 0xE000) then
            Char.ofNat cp :: utf8DecodeAux fuel r3
          else replChar :: utf8DecodeAux fuel r3
        else replChar :: utf8DecodeAux fuel rest
      | _ => [replChar]
    else if b < 0xF5 then
      match rest with
      | b2 :: b3 :: b4 :: r4 =>
        if isCont b2 && isCont b3 && isCont b4 then
          let cp := (b - 0xF0) * 262144 + (b2 - 0x80) * 4096 + (b3 - 0x80) * 64 + (b4 - 0x80)
          if 0x10000 ≤ cp && cp ≤ 0x10FFFF then
            Char.ofNat cp :: utf8DecodeAux fuel r4
          else replChar :: utf8DecodeAux fuel r4
        else replChar :: utf8DecodeAux fuel rest
      | _ => [replChar]
    else replChar :: utf8DecodeAux fuel rest

/-- Model of `buf.toString('utf8')`: decode bytes to a string. -/
def utf8Decode (bytes : List Nat) : String :=
  ⟨utf8DecodeAux (bytes.length + 1) bytes⟩

/-! ## Node-style lenient base64 decoding (`Buffer.from(str, 'base64')`) -/

/-- Value of one base64 alphabet character. -/
def b64Val (c : Char) : Option Nat :=
  if 'A' ≤ c && c ≤ 'Z' then some (c.toNat - 65)
  else if 'a' ≤ c && c ≤ 'z' then some (c.toNat - 97 + 26)
  else if '0' ≤ c && c ≤ '9' then some (c.toNat - 48 + 52)
  else if c = '+' then some 62
  else if c = '/' then some 63
  else none

/-- Collect the sextet values: characters outside the alphabet are skipped
and a `=` terminates the data, as in Node's lenient decoder. -/
def base64Sextets : List Char → List Nat
  | [] => []
  | '=' :: _ => []
  | c :: rest =>
    match b64Val c with
    | some v => v :: base64Sextets rest
    | none => base64Sextets rest

/-- Pack sextets into bytes; 2 or 3 trailing sextets give 1 or 2 bytes,
a single trailing sextet is dropped. -/
def base64Bytes : List Nat → List Nat
  | a :: b :: c :: d :: rest =>
    (a * 4 + b / 16) :: ((b % 16) * 16 + c / 4) :: ((c % 4) * 64 + d) :: base64Bytes rest
  | [a, b] => [a * 4 + b / 16]
  | [a, b, c] => [a * 4 + b / 16, (b % 16) * 16 + c / 4]
  | _ => []

/-- Model of `Buffer.from(s, 'base64')`. -/
def base64Decode (s : String) : List Nat :=
  base64Bytes (base64Sextets s.data)

/-! ## JSON values and `JSON.parse` -/

/-- A parsed JSON value. Numbers keep their source literal. -/
inductive JsonValue where
  | null
  | bool (b : Bool)
  | num (lit : String)
  | str (s : String)
  | arr (elems : List JsonValue)
  | obj (fields : List (String × JsonValue))

/-- JavaScript object assignment `o[k] = v` on an association list:
an existing key keeps its position and gets the new value, a new key
is appended. -/
def objInsert (l : List (String × JsonValue)) (k : String) (v : JsonValue) :
    List (String × JsonValue) :=
  if l.any (fun kv => kv.1 == k) then
    l.map (fun kv => if kv.1 = k then (k, v) else kv)
  else l ++ [(k, v)]

/-- JSON whitespace accepted by `JSON.parse`. -/
def isJsonWs (c : Char) : Bool := c = ' ' || c = '\t' || c = '\n' || c = '\r'

/-- Skip JSON whitespace. -/
def skipWs (s : List Char) : List Char := s.dropWhile isJsonWs

/-- Hex digit value. -/
def hexVal (c : Char) : Option Nat :=
  if '0' ≤ c && c ≤ '9' then some (c.toNat - 48)
  else if 'a' ≤ c && c ≤ 'f' then some (c.toNat - 97 + 10)
  else if 'A' ≤ c && c ≤ 'F' then some (c.toNat - 65 + 10)
  else none

/-- Four hex digits. -/
def parseHex4 : List Char → Option (Nat × List Char)
  | c1 :: c2 :: c3 :: c4 :: rest =>
    match hexVal c1, hexVal c2, hexVal c3, hexVal c4 with
    | some h1, some h2, some h3, some h4 =>
      some (h1 * 4096 + h2 * 256 + h3 * 16 + h4, rest)
    | _, _, _, _ => none
  | _ => none

/-- Body of a JSON string after the opening quote.  Escapes follow the JSON
grammar; a raw control character is a parse error.  A surrogate pair from two
`\u` escapes is combined; a lone surrogate (legal in a JS string, not
representable as a Lean scalar) is replaced by U+FFFD. -/
def parseStringBody : Nat → List Char → Option (List Char × List Char)
  | 0, _ => none
  | _ + 1, [] => none
  | fuel + 1, c :: rest =>
    if c = '"' then some ([], rest)
    else if c = '\\' then
      match rest with
      | [] => none
      | e :: r1 =>
        if e = '"' then (parseStringBody fuel r1).map (fun p => ('"' :: p.1, p.2))
        else if e = '\\' then (parseStringBody fuel r1).map (fun p => ('\\' :: p.1, p.2))
        else if e = '/' then (parseStringBody fuel r1).map (fun p => ('/' :: p.1, p.2))
        else if e = 'b' then (parseStringBody fuel r1).map (fun p => (Char.ofNat 8 :: p.1, p.2))
        else if e = 'f' then (parseStringBody fuel r1).map (fun p => (Char.ofNat 12 :: p.1, p.2))
        else if e = 'n' then (parseStringBody fuel r1).map (fun p => ('\n' :: p.1, p.2))
        else if e = 'r' then (parseStringBody fuel r1).map (fun p => ('\r' :: p.1, p.2))
        else if e = 't' then (parseStringBody fuel r1).map (fun p => ('\t' :: p.1, p.2))
        else if e = 'u' then
          match parseHex4 r1 with
          | none => none
          | some (n, r2) =>
            if 0xD800 ≤ n && n < 0xDC00 then
              match r2 with
              | '\\' :: 'u' :: r3 =>
                match parseHex4 r3 with
                | some (m, r4) =>
                  if 0xDC00 ≤ m && m < 0xE000 then
                    let cp := 0x10000 + (n - 0xD800) * 1024 + (m - 0xDC00)
                    (parseStringBody fuel r4).map (fun p => (Char.ofNat cp :: p.1, p.2))
                  else (parseStringBody fuel r2).map (fun p => (replChar :: p.1, p.2))
                | none => (parseStringBody fuel r2).map (fun p => (replChar :: p.1, p.2))
              | _ => (parseStringBody fuel r2).map (fun p => (replChar :: p.1, p.2))
            else if 0xDC00 ≤ n && n < 0xE000 then
              (parseStringBody fuel r2).map (fun p => (replChar :: p.1, p.2))
            else (parseStringBody fuel r2).map (fun p => (Char.ofNat n :: p.1, p.2))
        else none
    else if c.toNat < 0x20 then none
    else (parseStringBody fuel rest).map (fun p => (c :: p.1, p.2))

/-- JSON number literal: `-? (0 | [1-9][0-9]*) (. [0-9]+)? ([eE][+-]?[0-9]+)?`. -/
def parseNumberChars (s : List Char) : Option (String × List Char) :=
  let (sign, s1) := match s with
    | '-' :: r => (['-'], r)
    | _ => (([] : List Char), s)
  let intPart := s1.takeWhile Char.isDigit
  let s2 := s1.dropWhile Char.isDigit
  if intPart = [] then none
  else if intPart.length > 1 && intPart.head? = some '0' then none
  else
    let (fracPart, s3) := match s2 with
      | '.' :: r =>
        let fd := r.takeWhile Char.isDigit
        if fd = [] then (none, s2) else (some ('.' :: fd), r.dropWhile Char.isDigit)
      | _ => (none, s2)
    match fracPart, s2 with
    | none, '.' :: _ => none
    | _, _ =>
      let fp := fracPart.getD []
      let (expPart, s4) : Option (List Char) × List Char := match s3 with
        | 'e' :: r =>
          let (es, r1) := match r with
            | '+' :: r2 => (['e', '+'], r2)
            | '-' :: r2 => (['e', '-'], r2)
            | _ => (['e'], r)
          let ed := r1.takeWhile Char.isDigit
          if ed = [] then (none, s3) else (some (es ++ ed), r1.dropWhile Char.isDigit)
        | 'E' :: r =>
          let (es, r1) := match r with
            | '+' :: r2 => (['E', '+'], r2)
            | '-' :: r2 => (['E', '-'], r2)
            | _ => (['E'], r)
          let ed := r1.takeWhile Char.isDigit
          if ed = [] then (none, s3) else (some (es ++ ed), r1.dropWhile Char.isDigit)
        | _ => (none, s3)
      match expPart, s3 with
      | none, 'e' :: _ => none
      | none, 'E' :: _ => none
      | _, _ =>
        some (⟨sign ++ intPart ++ fp ++ expPart.getD []⟩, s4)

/-- Expect a literal continuation (for `null`, `true`, `false`). -/
def expectLit (lit : List Char) (rest : List Char) (v : JsonValue) :
    Option (JsonValue × List Char) :=
  if rest.take lit.length = lit then some (v, rest.drop lit.length) else none

mutual

/-- Fuel-based JSON value parser following the `JSON.parse` grammar. -/
def parseValueF : Nat → List Char → Option (JsonValue × List Char)
  | 0, _ => none
  | fuel + 1, s =>
    match skipWs s with
    | [] => none
    | 'n' :: rest => expectLit ['u', 'l', 'l'] rest JsonValue.null
    | 't' :: rest => expectLit ['r', 'u', 'e'] rest (JsonValue.bool true)
    | 'f' :: rest => expectLit ['a', 'l', 's', 'e'] rest (JsonValue.bool false)
    | '"' :: rest =>
      (parseStringBody (rest.length + 1) rest).map (fun p => (JsonValue.str ⟨p.1⟩, p.2))
    | '{' :: rest => parseObjStartF fuel rest
    | '[' :: rest => parseArrStartF fuel rest
    | c :: rest => (parseNumberChars (c :: rest)).map (fun p => (JsonValue.num p.1, p.2))

/-- Object body directly after `{`. -/
def parseObjStartF : Nat → List Char → Option (JsonValue × List Char)
  | 0, _ => none
  | fuel + 1, s =>
    match skipWs s with
    | '}' :: rest => some (JsonValue.obj [], rest)
    | s1 =>
      match parseMemberF fuel s1 with
      | some (k, v, rest) => parseObjTailF fuel rest (objInsert [] k v)
      | none => none

/-- One `"key": value` member (leading whitespace allowed). -/
def parseMemberF : Nat → List Char → Option (String × JsonValue × List Char)
  | 0, _ => none
  | fuel + 1, s =>
    match skipWs s with
    | '"' :: rest =>
      match parseStringBody (rest.length + 1) rest with
      | some (cs, r1) =>
        match skipWs r1 with
        | ':' :: r2 => (parseValueF fuel r2).map (fun p => (⟨cs⟩, p.1, p.2))
        | _ => none
      | none => none
    | _ => none

/-- Object members after the first one: `, member` or `}`. -/
def parseObjTailF : Nat → List Char → List (String × JsonValue) →
    Option (JsonValue × List Char)
  | 0, _, _ => none
  | fuel + 1, s, acc =>
    match skipWs s with
    | '}' :: rest => some (JsonValue.obj acc, rest)
    | ',' :: rest =>
      match parseMemberF fuel rest with
      | some (k, v, r) => parseObjTailF fuel r (objInsert acc k v)
      | none => none
    | _ => none

/-- Array body directly after `[`. -/
def parseArrStartF : Nat → List Char → Option (JsonValue × List Char)
  | 0, _ => none
  | fuel + 1, s =>
    match skipWs s with
    | ']' :: rest => some (JsonValue.arr [], rest)
    | s1 =>
      match parseValueF fuel s1 with
      | some (v, r) => parseArrTailF fuel r [v]
      | none => none

/-- Array elements after the first one: `, value` or `]`. -/
def parseArrTailF : Nat → List Char → List JsonValue → Option (JsonValue × List Char)
  | 0, _, _ => none
  | fuel + 1, s, acc =>
    match skipWs s with
    | ']' :: rest => some (JsonValue.arr acc, rest)
    | ',' :: rest =>
      match parseValueF fuel rest with
      | some (v, r) => parseArrTailF fuel r (acc ++ [v])
      | none => none
    | _ => none

end

/-- Model of `JSON.parse` on a whole string: parse one value, allow only trailing
whitespace, return `none` on any parse error (the callers all wrap the
call in `try`/`catch`). -/
def jsonParse (s : String) : Option JsonValue :=
  match parseValueF (2 * s.length + 2) s.data with
  | some (v, rest) => if skipWs rest = [] then some v else none
  | none => none

/-! ## JavaScript value semantics used by the instrumentation -/

/-- Is the mantissa of a JSON number literal zero (`0`, `-0`, `0.00`, `0e5` …)?
Such a literal denotes the only falsy JSON-parseable number. -/
def numLitIsZero (lit : String) : Bool :=
  let mantissa := (lit.data.filter (fun c => c ≠ '-' && c ≠ '.')).takeWhile
    (fun c => c ≠ 'e' && c ≠ 'E')
  mantissa.all (fun c => c = '0')

/-- JavaScript truthiness of a parsed JSON value (`null`, `false`, `0`-valued
numbers and `""` are falsy; every object and array is truthy). -/
def jsTruthy : JsonValue → Bool
  | JsonValue.null => false
  | JsonValue.bool b => b
  | JsonValue.num lit => ¬ numLitIsZero lit
  | JsonValue.str s => s ≠ ""
  | JsonValue.arr _ => true
  | JsonValue.obj _ => true

/-- Model of `Object.entries(v)` for the values `JSON.parse` can produce: own
enumerable entries of an object, index/element pairs of an array,
index/character pairs of a string, and nothing for primitives. -/
def jsEntries : JsonValue → List (String × JsonValue)
  | JsonValue.obj l => l
  | JsonValue.arr l => l.enum.map (fun p => (toString p.1, p.2))
  | JsonValue.str s => s.data.enum.map (fun p => (toString p.1, JsonValue.str (String.singleton p.2)))
  | _ => []

/-- Model of `String(v)` for the scalar claim values the extractor keeps
(`typeof v` is `string`, `number` or `boolean`); a number renders as its
source literal in this model. -/
def scalarString : JsonValue → Option String
  | JsonValue.str s => some s
  | JsonValue.num lit => some lit
  | JsonValue.bool b => some (if b then "true" else "false")
  | _ => none

/-- JavaScript object assignment for string-valued records
(`jwtClaims[key] = value`). -/
def strAssign (l : List (String × String)) (k v : String) : List (String × String) :=
  if l.any (fun kv => kv.1 == k) then
    l.map (fun kv => if kv.1 = k then (k, v) else kv)
  else l ++ [(k, v)]

/-! ## JWT claim extraction and header redaction
(`src/http.ts` lines 286–337, `src/enhanced-undici.ts` lines 23–74;
both files contain the same `parseJWTClaims` / `redactSensitiveHeaders`
pair) -/

/-- Whitespace matched by the regex class `\s` (the members that can occur
in a header value). -/
def isJsSpace (c : Char) : Bool :=
  c = ' ' || c = '\t' || c = '\n' || c = '\r' || c = Char.ofNat 11 || c = Char.ofNat 12
    || c = Char.ofNat 0xA0 || c = Char.ofNat 0xFEFF

/-- Model of `token.replace(/^Bearer\s+/i, '')`: strip a case-insensitive `Bearer`
prefix followed by at least one whitespace character (greedy). -/
def stripBearer (token : String) : String :=
  let cs := token.data
  if (cs.take 6).map Char.toLower = ['b', 'e', 'a', 'r', 'e', 'r']
      && isJsSpace ((cs.drop 6).headD 'x') then
    ⟨(cs.drop 6).dropWhile isJsSpace⟩
  else token

/-- Model of `parseJWTClaims` of `src/http.ts` / `src/enhanced-undici.ts`: strip an
optional `Bearer ` prefix, require exactly three dot-separated segments,
pad the middle segment to a multiple of four, swap the URL-safe base64
alphabet for the standard one, base64-decode, UTF-8-decode and
`JSON.parse`.  Any failure yields `none` (the source returns `null` from
its `catch`). -/
def parseJWTClaims (token : String) : Option JsonValue :=
  let cleanToken := stripBearer token
  let parts := jsSplit '.' cleanToken
  match parts with
  | [_, payload, _] =>
    let padded := payload ++ ⟨List.replicate ((4 - payload.length % 4) % 4) '='⟩
    let replaced := padded.data.map (fun c => if c = '-' then '+' else if c = '_' then '/' else c)
    let decoded := utf8Decode (base64Bytes (base64Sextets replaced))
    jsonParse decoded
  | _ => none

/-- The claim-attribute loop body: each scalar entry of the parsed claims
value becomes `token.<key>`, assigned into the accumulated claim record. -/
def addClaims (jwt : List (String × String)) (claims : JsonValue) :
    List (String × String) :=
  (jsEntries claims).foldl
    (fun acc kv =>
      match scalarString kv.2 with
      | some s => strAssign acc ("token." ++ kv.1) s
      | none => acc)
    jwt

/-- The `jwtClaims` contribution of a single authorization header value,
starting from an empty claim record: parse the token and keep scalar
claims when the parse result is truthy. -/
def extractTokenClaims (value : String) : List (String × String) :=
  match parseJWTClaims value with
  | some claims => if jsTruthy claims then addClaims [] claims else []
  | none => []

/-- The `SENSITIVE_HEADERS` constant shared by `src/http.ts` and
`src/enhanced-undici.ts`. -/
def SENSITIVE_HEADERS : List String :=
  ["authorization", "cookie", "set-cookie", "x-api-key", "x-auth-token",
   "x-access-token", "x-kubiks-key", "bearer", "proxy-authorization",
   "www-authenticate", "proxy-authenticate"]

/-- Model of `sensitiveList.some(sensitive => lowerKey.includes(sensitive))`. -/
def isSensitiveName (sensitiveList : List String) (lowerKey : String) : Bool :=
  sensitiveList.any (fun sensitive => strIncludes lowerKey sensitive)

/-- Processing of one header entry by the `for (const key in redactedHeaders)`
loop of `redactSensitiveHeaders`: accumulate the output header list and the
claim record.  The claim parse reads the original value (the marker is
assigned afterwards), and runs only when the lower-cased name contains
`authorization` and the value is truthy (non-empty). -/
def redactEntry (sensitiveList : List String)
    (acc : List (String × String) × List (String × String)) (kv : String × String) :
    List (String × String) × List (String × String) :=
  let lowerKey := kv.1.toLower
  if isSensitiveName sensitiveList lowerKey then
    let jwt :=
      if strIncludes lowerKey "authorization" && kv.2 ≠ "" then
        match parseJWTClaims kv.2 with
        | some claims => if jsTruthy claims then addClaims acc.2 claims else acc.2
        | none => acc.2
      else acc.2
    (acc.1 ++ [(kv.1, "[REDACTED]")], jwt)
  else (acc.1 ++ [kv], acc.2)

/-- Model of `redactSensitiveHeaders` of `src/http.ts` (lines 313–337) and
`src/enhanced-undici.ts` (lines 50–74): copy the header record, replace
every sensitive value by the fixed marker, and collect `token.*` claim
attributes from authorization-style headers.  The sensitive-fragment list
is a parameter (the source closes over `SENSITIVE_HEADERS`); header
records are association lists with the distinct keys a JS object has. -/
def redactSensitiveHeaders (sensitiveList : List String)
    (headers : List (String × String)) :
    List (String × String) × List (String × String) :=
  headers.foldl (redactEntry sensitiveList) ([], [])

/-! ## `JSON.stringify` -/

/-- Lowercase hex digit. -/
def hexDigitChar (n : Nat) : Char :=
  if n < 10 then Char.ofNat (48 + n) else Char.ofNat (97 + n - 10)

/-- Model of `JSON.stringify` escaping of one character. -/
def jsonEscapeChar (c : Char) : List Char :=
  if c = '"' then ['\\', '"']
  else if c = '\\' then ['\\', '\\']
  else if c = '\n' then ['\\', 'n']
  else if c = '\r' then ['\\', 'r']
  else if c = '\t' then ['\\', 't']
  else if c = Char.ofNat 8 then ['\\', 'b']
  else if c = Char.ofNat 12 then ['\\', 'f']
  else if c.toNat < 0x20 then
    ['\\', 'u', '0', '0', hexDigitChar (c.toNat / 16), hexDigitChar (c.toNat % 16)]
  else [c]

/-- Model of `JSON.stringify` of a string. -/
def jsonQuote (s : String) : String :=
  "\"" ++ ⟨(s.data.map jsonEscapeChar).flatten⟩ ++ "\""

mutual

/-- Model of `JSON.stringify` (no indentation), with numbers rendered as their
stored literal. -/
def jsonStringify : JsonValue → String
  | JsonValue.null => "null"
  | JsonValue.bool b => if b then "true" else "false"
  | JsonValue.num lit => lit
  | JsonValue.str s => jsonQuote s
  | JsonValue.arr l => "[" ++ String.intercalate "," (jsonStringifyList l) ++ "]"
  | JsonValue.obj l => "\x7b" ++ String.intercalate "," (jsonStringifyFields l) ++ "\x7d"

/-- Stringify array elements. -/
def jsonStringifyList : List JsonValue → List String
  | [] => []
  | v :: rest => jsonStringify v :: jsonStringifyList rest

/-- Stringify object members. -/
def jsonStringifyFields : List (String × JsonValue) → List String
  | [] => []
  | (k, v) :: rest => (jsonQuote k ++ ":" ++ jsonStringify v) :: jsonStringifyFields rest

end

/-! ## Number and form decoding helpers -/

/-- Decimal digits to a natural number. -/
def digitsToNat (l : List Char) : Nat :=
  l.foldl (fun acc c => acc * 10 + (c.toNat - 48)) 0

/-- Model of `parseInt(s, 10)`: skip leading whitespace, optional sign, then leading
decimal digits; `none` models `NaN`. -/
def jsParseInt (s : String) : Option Int :=
  let cs := s.data.dropWhile isJsSpace
  let (sign, cs1) : Int × List Char := match cs with
    | '-' :: r => (-1, r)
    | '+' :: r => (1, r)
    | _ => (1, cs)
  let digits := cs1.takeWhile Char.isDigit
  if digits = [] then none
  else some (sign * (digitsToNat digits : Int))

/-- Percent/plus decoding of form-encoded text, producing bytes: `+` is a
space, a valid `%XX` is one byte, a malformed `%` stays literal, other
characters contribute their UTF-8 bytes. -/
def formDecodeBytes : Nat → List Char → List Nat
  | 0, _ => []
  | _ + 1, [] => []
  | fuel + 1, c :: rest =>
    if c = '+' then 32 :: formDecodeBytes fuel rest
    else if c = '%' then
      match rest with
      | h1 :: h2 :: r2 =>
        match hexVal h1, hexVal h2 with
        | some a, some b => (a * 16 + b) :: formDecodeBytes fuel r2
        | _, _ => 37 :: formDecodeBytes fuel rest
      | _ => 37 :: formDecodeBytes fuel rest
    else utf8EncodeChar c ++ formDecodeBytes fuel rest

/-- Decode one form-encoded component to a string. -/
def formDecode (s : String) : String :=
  utf8Decode (formDecodeBytes (s.length + 1) s.data)

/-- Split a `key=value` segment at the first `=` (no `=` means empty value). -/
def splitFirstEq (seg : String) : String × String :=
  match seg.splitOn "=" with
  | [] => (seg, "")
  | [k] => (k, "")
  | k :: rest => (k, String.intercalate "=" rest)

/-- The decoded name/value pairs of `new URLSearchParams(text)`: an optional
leading `?` is stripped, empty `&`-segments are skipped. -/
def urlSearchParamsPairs (s : String) : List (String × String) :=
  let s1 := if s.startsWith "?" then s.drop 1 else s
  ((s1.splitOn "&").filter (fun seg => seg ≠ "")).map (fun seg =>
    let kv := splitFirstEq seg
    (formDecode kv.1, formDecode kv.2))

/-- Model of `Object.fromEntries` over string pairs (later duplicate keys win,
keeping the first position). -/
def fromEntriesStr (pairs : List (String × String)) : List (String × JsonValue) :=
  pairs.foldl (fun acc kv => objInsert acc kv.1 (JsonValue.str kv.2)) []

/-- Insertion step of Node's `querystring.parse`: a repeated key collects
its values into an array. -/
def qsInsert (l : List (String × JsonValue)) (k v : String) : List (String × JsonValue) :=
  match List.lookup k l with
  | none => l ++ [(k, JsonValue.str v)]
  | some (JsonValue.str old) =>
    l.map (fun kv => if kv.1 = k then (k, JsonValue.arr [JsonValue.str old, JsonValue.str v]) else kv)
  | some (JsonValue.arr a) =>
    l.map (fun kv => if kv.1 = k then (k, JsonValue.arr (a ++ [JsonValue.str v])) else kv)
  | some _ => l

/-- Model of `querystring.parse` from Node (`parse` import of `src/http.ts`):
split on `&`, skip empty segments, split each segment at the first `=`,
percent-decode both sides, collect repeats into arrays. -/
def querystringParse (s : String) : List (String × JsonValue) :=
  ((s.splitOn "&").filter (fun seg => seg ≠ "")).foldl
    (fun acc seg =>
      let kv := splitFirstEq seg
      qsInsert acc (formDecode kv.1) (formDecode kv.2))
    []

/-! ## Captured payloads (the values the capture helpers return) -/

/-- The JS value returned by a body-capture helper: either decoded content
(`text`/`structured`/`params`) or one of the diagnostic marker objects the
source constructs. -/
inductive CapturedPayload where
  | note (ty note : String)
  | params (kvs : List (String × String))
  | binaryData (size : Nat) (note : String)
  | binaryContent (contentType : String) (size : Option Int) (note : String)
  | truncated (size : Int) (preview : Option String) (note : Option String)
  | text (s : String)
  | structured (v : JsonValue)
  | captureError (error message : String)

/-- The JS value a `CapturedPayload` stands for, as a `JsonValue` (`NaN`
sizes stringify as `null`, absent optional fields are omitted). -/
def capturedToJson : CapturedPayload → JsonValue
  | CapturedPayload.note ty note =>
    JsonValue.obj [("_type", JsonValue.str ty), ("_note", JsonValue.str note)]
  | CapturedPayload.params kvs => JsonValue.obj (kvs.map fun kv => (kv.1, JsonValue.str kv.2))
  | CapturedPayload.binaryData size note =>
    JsonValue.obj [("_type", JsonValue.str "Binary"), ("_size", JsonValue.num (toString size)),
      ("_note", JsonValue.str note)]
  | CapturedPayload.binaryContent ct size note =>
    JsonValue.obj [("_type", JsonValue.str "Binary"), ("_contentType", JsonValue.str ct),
      ("_size", match size with | some i => JsonValue.num (toString i) | none => JsonValue.null),
      ("_note", JsonValue.str note)]
  | CapturedPayload.truncated size preview note =>
    JsonValue.obj ([("_truncated", JsonValue.bool true), ("_size", JsonValue.num (toString size))]
      ++ (match preview with | some p => [("_preview", JsonValue.str p)] | none => [])
      ++ (match note with | some n => [("_note", JsonValue.str n)] | none => []))
  | CapturedPayload.text s => JsonValue.str s
  | CapturedPayload.structured v => v
  | CapturedPayload.captureError e m =>
    JsonValue.obj [("_error", JsonValue.str e), ("_message", JsonValue.str m)]

/-- Model of `typeof bodyData === 'string' ? bodyData : JSON.stringify(bodyData)`. -/
def capturedAttrString (c : CapturedPayload) : String :=
  match capturedToJson c with
  | JsonValue.str s => s
  | v => jsonStringify v

/-- Model of `if (bodyData)` truthiness of a captured payload (marker objects are
always truthy; decoded content follows JS truthiness). -/
def capturedTruthy : CapturedPayload → Bool
  | CapturedPayload.text s => s ≠ ""
  | CapturedPayload.structured v => jsTruthy v
  | _ => true

/-- Shared binary content-type fragment list (`binaryTypes` in
`src/fetch-interceptor.ts` and `src/enhanced-undici.ts`). -/
def binaryTypes : List String :=
  ["image/", "video/", "audio/", "application/octet-stream", "application/pdf",
   "application/zip", "multipart/form-data"]

/-- Model of `try { return JSON.parse(text) } catch { return text }`. -/
def jsonFirst (text : String) : CapturedPayload :=
  match jsonParse text with
  | some v => CapturedPayload.structured v
  | none => CapturedPayload.text text

namespace FetchInterceptor

/-- Model of `isBinary` of `src/fetch-interceptor.ts`: more than 30% of the bytes are
control characters other than tab/newline/carriage-return.  The float
comparison `count / length > 0.3` is modelled as the exact rational
comparison `10 * count > 3 * length` (for `length = 0` both give false,
since `NaN > 0.3` is false). -/
def isBinary (bytes : List Nat) : Bool :=
  let nonPrintableCount :=
    (bytes.filter (fun byte => byte < 32 && byte ≠ 9 && byte ≠ 10 && byte ≠ 13)).length
  10 * nonPrintableCount > 3 * bytes.length

/-- Model of `isBinaryContentType` of `src/fetch-interceptor.ts`. -/
def isBinaryContentType (contentType : String) : Bool :=
  binaryTypes.any (fun ty => strIncludes contentType.toLower ty)

/-- Model of `normalizeHeaders`: lower-case the names and collapse into a record
(the three `HeadersInit` shapes all iterate name/value pairs, modelled as
an association list). -/
def normalizeHeaders (headers : List (String × String)) : List (String × String) :=
  headers.foldl (fun acc kv => strAssign acc kv.1.toLower kv.2) []

/-- Model of `getContentType`: `normalized['content-type']` of the optional header
argument. -/
def getContentType (headers : Option (List (String × String))) : Option String :=
  match headers with
  | none => none
  | some hs => List.lookup "content-type" (normalizeHeaders hs)

/-- Model of `parseBodyText` of `src/fetch-interceptor.ts` (lines 205–235).  The
`JSON.parse` of the `application/json` branch throws into the outer catch,
which returns the raw text, so that branch is the JSON-or-text fallback as
well.  A missing or empty content type attempts JSON first. -/
def parseBodyText (text : String) (contentType : Option String) : CapturedPayload :=
  match contentType with
  | none => jsonFirst text
  | some ct =>
    if ct = "" then jsonFirst text
    else
      let lowerContentType := ct.toLower
      if strIncludes lowerContentType "application/json" then jsonFirst text
      else if strIncludes lowerContentType "application/x-www-form-urlencoded" then
        CapturedPayload.structured (JsonValue.obj (fromEntriesStr (urlSearchParamsPairs text)))
      else if strIncludes lowerContentType "text/" then CapturedPayload.text text
      else jsonFirst text

/-- The `BodyInit` shapes `captureRequestBody` distinguishes. -/
inductive BodyInit where
  | formData
  | urlParams (kvs : List (String × String))
  | stream
  | bytes (data : List Nat)
  | str (s : String)

/-- Model of `init?.body` truthiness (`""` is the only falsy body shape here). -/
def bodyTruthy : BodyInit → Bool
  | BodyInit.str s => s ≠ ""
  | _ => true

/-- Model of `captureRequestBody` of `src/fetch-interceptor.ts` (lines 119–163).
`FormData` and streams yield marker objects, byte buffers are decoded
unless the binary heuristic rejects them (note: no size check on this
path), strings are size-checked by UTF-16 length then decoded. -/
def captureRequestBody (maxBodySize : Nat) (body : BodyInit)
    (headers : Option (List (String × String))) : CapturedPayload :=
  let contentType := getContentType headers
  match body with
  | BodyInit.formData =>
    CapturedPayload.note "FormData" "FormData not captured (likely contains files)"
  | BodyInit.urlParams kvs =>
    CapturedPayload.params (kvs.foldl (fun acc kv => strAssign acc kv.1 kv.2) [])
  | BodyInit.stream => CapturedPayload.note "ReadableStream" "Stream not captured"
  | BodyInit.bytes data =>
    if isBinary data then CapturedPayload.binaryData data.length "Binary data not captured"
    else parseBodyText (utf8Decode data) contentType
  | BodyInit.str s =>
    if s.length > maxBodySize then
      CapturedPayload.truncated s.length (some (s.take 100)) none
    else parseBodyText s contentType

/-- The response data `captureResponseBody` consumes: the two headers it
reads and the result of `response.text()` (which can reject). -/
structure RespBody where
  contentTypeHeader : Option String
  contentLengthHeader : Option String
  textResult : Except String String

/-- Model of `captureResponseBody` of `src/fetch-interceptor.ts` (lines 165–203):
declared-length check, binary content-type check, then read the text,
length-check it and decode.  A rejected `text()` lands in the catch,
producing the error marker. -/
def captureResponseBody (maxBodySize : Nat) (r : RespBody) : CapturedPayload :=
  let contentType := r.contentTypeHeader.getD ""
  let contentLength := jsParseInt (r.contentLengthHeader.getD "0")
  if (match contentLength with
      | some i => decide (i > (maxBodySize : Int))
      | none => false) then
    CapturedPayload.truncated (contentLength.getD 0) none
      (some ("Response too large (" ++ toString (contentLength.getD 0) ++ " bytes)"))
  else if isBinaryContentType contentType then
    CapturedPayload.binaryContent contentType contentLength "Binary content not captured"
  else
    match r.textResult with
    | Except.error msg =>
      CapturedPayload.captureError "Failed to capture response body" msg
    | Except.ok text =>
      if text.length > maxBodySize then
        CapturedPayload.truncated text.length (some (text.take 100)) none
      else parseBodyText text (some contentType)

end FetchInterceptor

namespace Undici

/-- The body shapes of an undici request dispatch that
`EnhancedUndiciInstrumentation` handles: a `Buffer`, a string, or a plain
object (modelled by its JSON value). -/
inductive UndiciBody where
  | buf (bytes : List Nat)
  | str (s : String)
  | objBody (v : JsonValue)

/-- JS truthiness of a request body value. -/
def undiciBodyTruthy : UndiciBody → Bool
  | UndiciBody.str s => s ≠ ""
  | UndiciBody.buf _ => true
  | UndiciBody.objBody v => jsTruthy v

/-- Model of `getBodySize` of `src/enhanced-undici.ts` (lines 325–336):
buffer length, UTF-8 byte length of a string, byte length of the
JSON-stringified object. -/
def getBodySize : UndiciBody → Nat
  | UndiciBody.buf b => b.length
  | UndiciBody.str s => (utf8Encode s).length
  | UndiciBody.objBody v => (utf8Encode (jsonStringify v)).length

/-- Model of `shouldCaptureBody` of `src/enhanced-undici.ts` (lines 282–323):
falsy bodies are rejected, then binary content types, then buffers that
look binary by the 30% heuristic, then bodies over the size limit.
`this.options.maxBodySize || 10000` is the `maxBodySize` argument. -/
def shouldCaptureBody (maxBodySize : Nat) (contentType : Option String)
    (body : UndiciBody) : Bool :=
  if ¬ undiciBodyTruthy body then false
  else if (match contentType with
    | some ct => ct ≠ "" && binaryTypes.any (fun ty => strIncludes ct.toLower ty)
    | none => false) then false
  else if (match body with
    | UndiciBody.buf bytes => FetchInterceptor.isBinary bytes
    | _ => false) then false
  else if getBodySize body > maxBodySize then false
  else true

end Undici

/-! ## Span operations (the tracing API consumed by the adapters) -/

/-- A primitive attribute value. -/
inductive AttrValue where
  | str (s : String)
  | int (i : Int)
  | boolVal (b : Bool)

/-- One observable operation on the active span. -/
inductive SpanOp where
  | setAttrs (kvs : List (String × AttrValue))
  | setAttr (k : String) (v : AttrValue)
  | setStatusOk
  | setStatusError (msg : String)
  | endSpan

/-- The attribute keys an operation sets. -/
def attrKeysOf : SpanOp → List String
  | SpanOp.setAttrs kvs => kvs.map Prod.fst
  | SpanOp.setAttr k _ => [k]
  | _ => []

/-- All attribute keys set by a list of span operations. -/
def opsKeys (ops : List SpanOp) : List String :=
  (ops.map attrKeysOf).flatten

/-- Is an operation `span.end()`? -/
def isEndSpan : SpanOp → Bool
  | SpanOp.endSpan => true
  | _ => false

/-- Is an operation a status update? -/
def isStatusOp : SpanOp → Bool
  | SpanOp.setStatusOk => true
  | SpanOp.setStatusError _ => true
  | _ => false

/-- A thrown JS value: an `Error` with a message, or any other value. -/
inductive JsThrown where
  | error (message : String)
  | other

/-- Model of `error instanceof Error ? error.message : 'Unknown error'`. -/
def thrownMessage : JsThrown → String
  | JsThrown.error m => m
  | JsThrown.other => "Unknown error"

namespace Http

/-- Model of `ignoredHosts` of `src/http.ts` (lines 463–466). -/
def ignoredHosts : List String := ["localhost", "otlp.kubiks.ai"]

/-- Model of `shouldCaptureBody` of `src/http.ts` (lines 541–543):
`!ignoredHosts.find(ignoredHost => host.includes(ignoredHost))` (every
list entry is a non-empty, hence truthy, string, so `find` + `!` is
`¬ any`). -/
def shouldCaptureBody (host : String) : Bool :=
  ¬ (ignoredHosts.any (fun ignoredHost => strIncludes host ignoredHost))

/-- A chunk passed to `write`/`end`: a JS string or a `Buffer`. -/
inductive Chunk where
  | str (s : String)
  | buf (b : List Nat)

/-- The bytes `chunks.push(...)` accumulates for a chunk
(strings via `Buffer.from`). -/
def chunkBytes : Chunk → List Nat
  | Chunk.str s => utf8Encode s
  | Chunk.buf b => b

/-- Truthiness of the optional `end(data)` argument (`""` is falsy, a
`Buffer` — even empty — is truthy). -/
def chunkTruthy : Chunk → Bool
  | Chunk.str s => s ≠ ""
  | Chunk.buf _ => true

/-- The heuristic trigger of the patched `write`:
`data[data.length - 1] === '}'` for strings, `=== 125` for buffers
(false on empty data, where the indexing yields `undefined`). -/
def chunkEndsBrace : Chunk → Bool
  | Chunk.str s => s.data.getLast? = some '\x7d'
  | Chunk.buf b => b.getLast? = some 125

/-- State-passing form of the patched `write`/`end` pair installed by
`getClientRequestBody` (`src/http.ts` lines 468–510): each write pushes its
chunk and fires the callback when the chunk ends in `}`; `end` pushes its
truthy data argument and fires the callback if any chunk accumulated.
The result lists the successive callback arguments. -/
def tapRunAux (chunks : List (List Nat)) : List Chunk → Option Chunk → List String
  | [], endData =>
    let chunks2 := match endData with
      | some d => if chunkTruthy d then chunks ++ [chunkBytes d] else chunks
      | none => chunks
    if chunks2.length > 0 then [utf8Decode chunks2.flatten] else []
  | w :: ws, endData =>
    let chunks1 := chunks ++ [chunkBytes w]
    (if chunkEndsBrace w then [utf8Decode chunks1.flatten] else [])
      ++ tapRunAux chunks1 ws endData

/-- The callback invocations produced by one request body: the writes in
order, then the final `end(data)` call. -/
def getClientRequestBody (writes : List Chunk) (endData : Option Chunk) : List String :=
  tapRunAux [] writes endData

/-- Model of `getClientResponseBody` (`src/http.ts` lines 512–539): the PassThrough
tap accumulates every delivered chunk and, at stream end, invokes the
callback once with the concatenation — only if at least one chunk arrived.
The result is the optional callback argument. -/
def getClientResponseBody (chunks : List Chunk) : Option String :=
  if chunks.length > 0 then some (utf8Decode (chunks.map chunkBytes).flatten) else none

/-- Model of `_parseBodySafe` of `src/http.ts` (lines 545–559): only a present,
non-empty string content type triggers decoding; `application/json` /
`application/x-amz-json` parse as JSON (parse failure falls back to the
raw body via the catch), `application/x-www-form-urlencoded` parses as a
query string; anything else — including an absent content type — returns
the body verbatim.  The substring checks are case-sensitive here. -/
def _parseBodySafe (body : String) (headers : List (String × String)) : CapturedPayload :=
  match List.lookup "content-type" headers with
  | some ct =>
    if ct = "" then CapturedPayload.text body
    else if strIncludes ct "application/json" || strIncludes ct "application/x-amz-json" then
      jsonFirst body
    else if strIncludes ct "application/x-www-form-urlencoded" then
      CapturedPayload.structured (JsonValue.obj (querystringParse body))
    else CapturedPayload.text body
  | none => CapturedPayload.text body

/-- The options fields of `BetterHttpInstrumentationOptions` the hooks
read. -/
structure HookOptions where
  captureHeaders : Bool
  captureBody : Bool

/-- A matched plugin, reduced to the fields the request hook reads. -/
structure PluginCfg where
  name : String
  captureBody : Bool

/-- Fixed provenance attributes set on every span by the request hook. -/
def provenanceAttrs : List (String × AttrValue) :=
  [("kubiks.otel.source", AttrValue.str "otel-nextjs"),
   ("kubiks.otel.version", AttrValue.str "1.0.11"),
   ("kubiks.otel.instrumentation", AttrValue.str "better-http")]

/-- Header capture: redact, flatten under the given key namespace, then add
the JWT claim attributes when any were extracted. -/
def headerCaptureOps (ns : String) (headers : List (String × String)) : List SpanOp :=
  let r := redactSensitiveHeaders SENSITIVE_HEADERS headers
  [SpanOp.setAttrs (r.1.map (fun kv => (ns ++ kv.1, AttrValue.str kv.2)))]
    ++ (if r.2.length > 0 then
          [SpanOp.setAttrs (r.2.map (fun kv => (kv.1, AttrValue.str kv.2)))]
        else [])

/-- The `request.body` attribute set for one tap callback invocation. -/
def requestBodyOp (headers : List (String × String)) (body : String) : SpanOp :=
  SpanOp.setAttr "request.body" (AttrValue.str (capturedAttrString (_parseBodySafe body headers)))

/-- The span operations of `requestHook` (`src/http.ts` lines 357–426) on a
`ClientRequest` whose body is written as `writes` followed by
`end(endData)`: provenance attributes, then either the plugin branch
(plugin name, optional headers, body capture gated only on
`plugin.captureBody`) or the generic branch (optional headers, body
capture gated on `options.captureBody` and the ignored-host check). -/
def requestHookOps (options : HookOptions) (plugin : Option PluginCfg) (host : String)
    (headers : List (String × String)) (writes : List Chunk) (endData : Option Chunk) :
    List SpanOp :=
  [SpanOp.setAttrs provenanceAttrs] ++
  match plugin with
  | some p =>
    [SpanOp.setAttr "http.plugin.name" (AttrValue.str p.name)]
      ++ (if options.captureHeaders then headerCaptureOps "request.headers." headers else [])
      ++ (if p.captureBody then
            (getClientRequestBody writes endData).map (requestBodyOp headers)
          else [])
  | none =>
    (if options.captureHeaders then headerCaptureOps "request.headers." headers else [])
      ++ (if options.captureBody && shouldCaptureBody host then
            (getClientRequestBody writes endData).map (requestBodyOp headers)
          else [])

/-- The span operations of `responseHook` (`src/http.ts` lines 427–459) on
an `IncomingMessage` whose tap delivers `chunks`: optional header capture,
then body capture gated on `options.captureBody` and the ignored-host
check applied to `response.url || ''`.  (The `cb` continuation calls are
not span operations and are not recorded.) -/
def responseHookOps (options : HookOptions) (url : String)
    (headers : List (String × String)) (chunks : List Chunk) : List SpanOp :=
  (if options.captureHeaders then headerCaptureOps "response.headers." headers else [])
    ++ (if options.captureBody && shouldCaptureBody url then
          match getClientResponseBody chunks with
          | some body =>
            [SpanOp.setAttr "response.body"
              (AttrValue.str (capturedAttrString (_parseBodySafe body headers)))]
          | none => []
        else [])

end Http

namespace FetchInterceptor

/-- The options record of the interceptor (constructor defaults applied). -/
structure FetchOptions where
  captureRequestBody : Bool
  captureResponseBody : Bool
  captureHeaders : Bool
  maxBodySize : Nat

/-- The response produced by the underlying `fetch`, reduced to the fields
the interceptor reads (`clone()` shares the same data). -/
structure FetchResponse where
  status : Int
  statusText : String
  headers : List (String × String)
  body : RespBody

/-- One intercepted call: the URL pieces (URL parsing itself is outside
the model; `scheme`/`host` are the components `new URL` yields), the
request init data, and the outcome of the underlying `fetch`. -/
structure FetchInput where
  url : String
  scheme : String
  host : String
  method : String
  reqHeaders : Option (List (String × String))
  reqBody : Option BodyInit
  result : Except JsThrown FetchResponse

/-- The fixed attribute block of `startActiveSpan`. -/
def initialOps (inp : FetchInput) : List SpanOp :=
  [SpanOp.setAttrs
    [("http.method", AttrValue.str inp.method),
     ("http.url", AttrValue.str inp.url),
     ("http.scheme", AttrValue.str inp.scheme),
     ("http.host", AttrValue.str inp.host),
     ("kubiks.otel.source", AttrValue.str "otel-nextjs"),
     ("kubiks.otel.version", AttrValue.str "1.0.11"),
     ("kubiks.otel.instrumentation", AttrValue.str "fetch-interceptor")]]

/-- The span operations of the `try` block before the underlying call:
optional request-header capture and optional request-body capture
(`captureRequestBody` never throws, its internal catch returns the error
marker object). -/
def requestSectionOps (options : FetchOptions) (inp : FetchInput) : List SpanOp :=
  (match inp.reqHeaders with
    | some hs =>
      if options.captureHeaders then
        [SpanOp.setAttrs ((normalizeHeaders hs).map
          (fun kv => ("request.headers." ++ kv.1, AttrValue.str kv.2)))]
      else []
    | none => [])
  ++ (match inp.reqBody with
    | some b =>
      if options.captureRequestBody && bodyTruthy b then
        let bodyData := captureRequestBody options.maxBodySize b inp.reqHeaders
        if capturedTruthy bodyData then
          [SpanOp.setAttr "request.body" (AttrValue.str (capturedAttrString bodyData))]
        else []
      else []
    | none => [])

/-- The `interceptFetch` wrapper of `src/fetch-interceptor.ts`
(lines 38–117), as the span-operation trace and the value returned or
rethrown to the caller.  The `try` block captures request headers and
body, performs the call, and on success records status, response headers
and body before `setStatus(OK)`; the `catch` records `setStatus(ERROR)`
with the thrown value's message and rethrows it; the `finally` always ends
the span. -/
def interceptFetchRun (options : FetchOptions) (inp : FetchInput) :
    List SpanOp × Except JsThrown FetchResponse :=
  match inp.result with
  | Except.error e =>
    (initialOps inp ++ requestSectionOps options inp
      ++ [SpanOp.setStatusError (thrownMessage e), SpanOp.endSpan],
     Except.error e)
  | Except.ok resp =>
    let statusOps := [SpanOp.setAttrs
      [("http.status_code", AttrValue.int resp.status),
       ("http.status_text", AttrValue.str resp.statusText)]]
    let respHeaderOps :=
      if options.captureHeaders then
        [SpanOp.setAttrs ((normalizeHeaders resp.headers).map
          (fun kv => ("response.headers." ++ kv.1, AttrValue.str kv.2)))]
      else []
    let respBodyOps :=
      if options.captureResponseBody then
        let bodyData := captureResponseBody options.maxBodySize resp.body
        if capturedTruthy bodyData then
          [SpanOp.setAttr "response.body" (AttrValue.str (capturedAttrString bodyData))]
        else []
      else []
    (initialOps inp ++ requestSectionOps options inp ++ statusOps ++ respHeaderOps ++ respBodyOps
      ++ [SpanOp.setStatusOk, SpanOp.endSpan],
     Except.ok resp)

end FetchInterceptor

namespace Lambda

/-- A causal link built by the step-function branch: `traceId`, `spanId`
and `traceFlags` from the 2nd, 3rd and 4th dash-separated fields of the
embedded `traceparent` (`none` components model `undefined`/`NaN`). -/
structure LinkCtx where
  traceId : Option String
  spanId : Option String
  traceFlags : Option Int

/-- Model of `Number(x)` on an optional string, restricted to the integral literals
trace-flag fields carry: `undefined` is `NaN` (`none`), an
empty/whitespace string is `0`, decimal and `0x`-hex integer literals take
their value, anything else is the `NaN` marker (fractional or exponent
literals do not occur in dash-separated `traceparent` fields). -/
def jsNumber : Option String → Option Int
  | none => none
  | some s =>
    let cs := ((s.data.dropWhile isJsSpace).reverse.dropWhile isJsSpace).reverse
    match cs with
    | [] => some 0
    | '0' :: 'x' :: ds =>
      if ds ≠ [] && ds.all (fun c => (hexVal c).isSome) then
        some ((ds.foldl (fun acc c => acc * 16 + ((hexVal c).getD 0)) 0 : Nat) : Int)
      else none
    | '0' :: 'X' :: ds =>
      if ds ≠ [] && ds.all (fun c => (hexVal c).isSome) then
        some ((ds.foldl (fun acc c => acc * 16 + ((hexVal c).getD 0)) 0 : Nat) : Int)
      else none
    | '-' :: ds =>
      if ds ≠ [] && ds.all Char.isDigit then some (-(digitsToNat ds : Int)) else none
    | '+' :: ds =>
      if ds ≠ [] && ds.all Char.isDigit then some ((digitsToNat ds : Int)) else none
    | ds =>
      if ds.all Char.isDigit then some ((digitsToNat ds : Int)) else none

/-- Plain property access `v[k]` for a non-null value: object lookup, and
`undefined` on primitives and arrays (the keys read here are never
array/string indices or built-ins). -/
def jsGet : JsonValue → String → Option JsonValue
  | JsonValue.obj l, k => List.lookup k l
  | _, _ => none

/-- Optional-chaining access `v?.k`: `undefined` when `v` is
`undefined`/`null`, plain access otherwise. -/
def jsOptAccess (v : Option JsonValue) (k : String) : Option JsonValue :=
  match v with
  | none => none
  | some JsonValue.null => none
  | some w => jsGet w k

/-- Truthiness of a possibly-`undefined` value. -/
def optTruthy (a : Option JsonValue) : Bool :=
  match a with
  | some v => jsTruthy v
  | none => false

/-- JavaScript `a || b`. -/
def jsOr (a b : Option JsonValue) : Option JsonValue :=
  if optTruthy a then a else b

/-- The `traceparent` lookup chain of the step-function branch
(`src/lambda/propation.ts` line 46):
`parent._kubiks?.traceparent || parent.Payload?._kubiks?.traceparent ||
parent._kubiks?._kubiks?.traceparent`. -/
def tpChain (parent : JsonValue) : Option JsonValue :=
  let t1 := jsOptAccess (jsGet parent "_kubiks") "traceparent"
  let t2 := jsOptAccess (jsOptAccess (jsGet parent "Payload") "_kubiks") "traceparent"
  let t3 := jsOptAccess (jsOptAccess (jsGet parent "_kubiks") "_kubiks") "traceparent"
  jsOr t1 (jsOr t2 t3)

/-- The mapped-callback body for a non-null element: a falsy `traceparent`
yields no link (`undefined`, filtered later), a truthy non-string makes
`.split` throw, and a non-empty string yields a link from its
dash-separated fields. -/
def stepLinkBody (parent : JsonValue) : Except String (Option LinkCtx) :=
  match tpChain parent with
  | some (JsonValue.str tp) =>
    if tp ≠ "" then
      let parts := jsSplit '-' tp
      Except.ok (some ⟨parts[1]?, parts[2]?, jsNumber parts[3]?⟩)
    else Except.ok none
  | some v =>
    if jsTruthy v then Except.error "TypeError: traceparent.split is not a function"
    else Except.ok none
  | none => Except.ok none

/-- The link an element of a step-function list event contributes; a null
element makes the first property access throw. -/
def stepLinkOf (parent : JsonValue) : Except String (Option LinkCtx) :=
  match parent with
  | JsonValue.null => Except.error "TypeError: Cannot read properties of null"
  | _ => stepLinkBody parent

/-- Model of `event.map(...)` where the callback may throw: sequential evaluation,
stopping at the first thrown error. -/
def jsMapThrow : List JsonValue → Except String (List (Option LinkCtx))
  | [] => Except.ok []
  | e :: rest =>
    match stepLinkOf e with
    | Except.error msg => Except.error msg
    | Except.ok l =>
      match jsMapThrow rest with
      | Except.error msg => Except.error msg
      | Except.ok ls => Except.ok (l :: ls)

/-- The `step-function` array branch of `extractContext`
(`src/lambda/propation.ts` lines 43–59): one mapped entry per list
element, then `.filter(el => el)` drops the `undefined` entries of
elements without a truthy `traceparent`. -/
def extractStepFunctionLinks (event : List JsonValue) : Except String (List LinkCtx) :=
  match jsMapThrow event with
  | Except.ok links => Except.ok (links.filterMap id)
  | Except.error msg => Except.error msg

end Lambda

/-! ## Shared auxiliary lemmas -/

/-- The function `String.data` is injective. -/
theorem string_data_inj {a b : String} (h : a.data = b.data) : a = b := by
  cases a; cases b; simp only at h; rw [h]

/-- Appending strings appends their character data. -/
theorem string_data_append (a b : String) : (a ++ b).data = a.data ++ b.data := rfl

/-- Left cancellation for string append. -/
theorem string_append_left_cancel {p a b : String} (h : p ++ a = p ++ b) : a = b := by
  apply string_data_inj
  have h2 := congrArg String.data h
  rw [string_data_append, string_data_append] at h2
  exact List.append_cancel_left h2

/-- A string containing a non-empty fragment is non-empty. -/
theorem ne_empty_of_strIncludes {ct sub : String} (hsub : sub ≠ "")
    (h : strIncludes ct sub = true) : ct ≠ "" := by
  simp only [strIncludes, decide_eq_true_eq] at h
  intro he
  subst he
  have hlen := h.length_le
  simp only [List.length_nil, Nat.le_zero, List.length_eq_zero] at hlen
  exact hsub (string_data_inj hlen)

/-- Containment of an all-lowercase fragment survives `toLowerCase`. -/
theorem strIncludes_toLower_of_strIncludes {ct sub : String}
    (hl : sub.data.map Char.toLower = sub.data) (h : strIncludes ct sub = true) :
    strIncludes ct.toLower sub = true := by
  simp only [strIncludes, decide_eq_true_eq] at h ⊢
  rw [String.toLower, String.map_eq]
  have h2 := h.map Char.toLower
  rwa [hl] at h2

/-- Model of `toLowerCase` as a plain character map (for kernel evaluation on
literals). -/
theorem toLower_eq_map (s : String) : s.toLower = ⟨s.data.map Char.toLower⟩ := by
  rw [String.toLower, String.map_eq]

/-- The first component `redactEntry` produces: the processed header is
appended, redacted exactly when its lower-cased name is sensitive. -/
theorem redactEntry_fst (sl : List String)
    (acc : List (String × String) × List (String × String)) (kv : String × String) :
    (redactEntry sl acc kv).1 =
      acc.1 ++ [(kv.1, if isSensitiveName sl kv.1.toLower then "[REDACTED]" else kv.2)] := by
  by_cases h : isSensitiveName sl kv.1.toLower <;> simp [redactEntry, h]

/-- Unfolded form of the redaction fold's first component. -/
theorem redact_foldl_fst (sl : List String) (headers : List (String × String))
    (acc : List (String × String) × List (String × String)) :
    (headers.foldl (redactEntry sl) acc).1 =
      acc.1 ++ headers.map (fun kv =>
        (kv.1, if isSensitiveName sl kv.1.toLower then "[REDACTED]" else kv.2)) := by
  induction headers generalizing acc with
  | nil => simp
  | cons kv rest ih =>
    rw [List.foldl_cons, List.map_cons, ih, redactEntry_fst]
    simp

/-! ## C1 -/

/-- Claim **C1**: for every header record and every configured sensitive-fragment
list, redaction returns a record with the same names in the same order in
which exactly the headers whose lower-cased name contains a sensitive
fragment carry the fixed `[REDACTED]` marker, and every other value is the
original one.  The input record is untouched: the function is a pure map
over the association list (the source copies the record with a spread
before writing). -/
theorem redactSensitiveHeaders_masks_exactly_sensitive (sensitiveList : List String)
    (headers : List (String × String)) :
    (redactSensitiveHeaders sensitiveList headers).1 =
      headers.map (fun kv =>
        (kv.1, if isSensitiveName sensitiveList kv.1.toLower then "[REDACTED]" else kv.2)) := by
  unfold redactSensitiveHeaders
  rw [redact_foldl_fst]
  rfl

/-! ## C4 -/

namespace Http

/-- The chunk list accumulated over a whole body: every written chunk,
then the truthy `end(data)` argument. -/
def finalChunks (writes : List Chunk) (endData : Option Chunk) : List (List Nat) :=
  writes.map chunkBytes ++
    (match endData with
     | some d => if chunkTruthy d then [chunkBytes d] else []
     | none => [])

end Http

/-- Callback count of the writer tap, with an arbitrary starting
accumulator. -/
theorem tapRunAux_length (writes : List Http.Chunk) (endData : Option Http.Chunk)
    (acc : List (List Nat)) :
    (Http.tapRunAux acc writes endData).length =
      (writes.filter Http.chunkEndsBrace).length +
        (if acc ++ Http.finalChunks writes endData = [] then 0 else 1) := by
  induction writes generalizing acc with
  | nil =>
    have key : ∀ l : List (List Nat),
        (if l.length > 0 then [utf8Decode l.flatten] else []).length =
          if l = [] then 0 else 1 := by
      intro l; cases l <;> simp
    cases endData with
    | none => simpa [Http.tapRunAux, Http.finalChunks] using key acc
    | some d =>
      by_cases hT : Http.chunkTruthy d
      · simpa [Http.tapRunAux, Http.finalChunks, hT] using key (acc ++ [Http.chunkBytes d])
      · simpa [Http.tapRunAux, Http.finalChunks, hT] using key acc
  | cons w ws ih =>
    simp only [Http.tapRunAux, List.length_append, ih (acc ++ [Http.chunkBytes w])]
    have h1 : acc ++ [Http.chunkBytes w] ++ Http.finalChunks ws endData ≠ [] := by simp
    have h2 : acc ++ Http.finalChunks (w :: ws) endData ≠ [] := by
      simp [Http.finalChunks]
    rw [List.filter_cons]
    simp only [h1, if_neg, h2]
    by_cases hb : Http.chunkEndsBrace w <;> simp [hb] <;> omega

/-- The last callback invocation of the writer tap carries the complete
accumulated body. -/
theorem tapRunAux_getLast (writes : List Http.Chunk) (endData : Option Http.Chunk)
    (acc : List (List Nat)) (hne : acc ++ Http.finalChunks writes endData ≠ []) :
    (Http.tapRunAux acc writes endData).getLast? =
      some (utf8Decode (acc ++ Http.finalChunks writes endData).flatten) := by
  induction writes generalizing acc with
  | nil =>
    cases endData with
    | none =>
      simp only [Http.finalChunks, List.map_nil, List.nil_append, List.append_nil] at hne ⊢
      have : acc.length > 0 := by
        cases acc with
        | nil => simp at hne
        | cons a t => simp
      simp [Http.tapRunAux, this]
    | some d =>
      by_cases hT : Http.chunkTruthy d
      · simp only [Http.finalChunks, List.map_nil, List.nil_append, hT, if_true] at hne ⊢
        have : (acc ++ [Http.chunkBytes d]).length > 0 := by simp
        simp [Http.tapRunAux, hT, this]
      · simp only [Http.finalChunks, List.map_nil, List.nil_append, hT, if_false,
          List.append_nil] at hne ⊢
        have : acc.length > 0 := by
          cases acc with
          | nil => simp at hne
          | cons a t => simp
        simp [Http.tapRunAux, hT, this]
  | cons w ws ih =>
    have hne2 : acc ++ [Http.chunkBytes w] ++ Http.finalChunks ws endData ≠ [] := by simp
    have ihres := ih (acc ++ [Http.chunkBytes w]) hne2
    have hrec : Http.tapRunAux (acc ++ [Http.chunkBytes w]) ws endData ≠ [] := by
      intro h
      rw [h] at ihres
      simp at ihres
    have hfc : acc ++ Http.finalChunks (w :: ws) endData =
        acc ++ [Http.chunkBytes w] ++ Http.finalChunks ws endData := by
      simp [Http.finalChunks]
    rw [hfc]
    simp only [Http.tapRunAux]
    rw [List.getLast?_append]
    rw [ihres]
    simp

/-- Claim **C4** counterexample: a body written as one `write` whose data ends in
`}` followed by a plain `end()` invokes the capture callback twice (once
from the `}` heuristic in `write`, once from `end`), not exactly once as
claimed — the patched pair has no guard against double delivery. -/
theorem tap_single_write_double_callback :
    Http.getClientRequestBody [Http.Chunk.str "\x7b\"a\":1\x7d"] none =
      ["\x7b\"a\":1\x7d", "\x7b\"a\":1\x7d"] ∧
    (Http.getClientRequestBody [Http.Chunk.str "\x7b\"a\":1\x7d"] none).length ≠ 1 := by
  exact ⟨rfl, by decide⟩

/-- Claim **C4** (amended): the writer tap's capture callback fires once per
write whose data ends in `}` plus once at `end` if any chunk accumulated
— so a single `}`-terminated write followed by `end()` invokes it exactly
twice, not once; and whenever any chunk accumulated, the final invocation
always carries the complete body (so the last `request.body` attribute
written is the full body). -/
theorem tap_callback_invocations (writes : List Http.Chunk) (endData : Option Http.Chunk) :
    (Http.getClientRequestBody writes endData).length =
      (writes.filter Http.chunkEndsBrace).length +
        (if Http.finalChunks writes endData = [] then 0 else 1) ∧
    (Http.finalChunks writes endData ≠ [] →
      (Http.getClientRequestBody writes endData).getLast? =
        some (utf8Decode (Http.finalChunks writes endData).flatten)) := by
  constructor
  · have h := tapRunAux_length writes endData []
    simpa [Http.getClientRequestBody] using h
  · intro h
    have h2 := tapRunAux_getLast writes endData [] (by simpa using h)
    simpa [Http.getClientRequestBody] using h2

/-- Witness for the amended C4 theorem at a concrete body. -/
theorem tap_callback_invocations_witness :
    (Http.getClientRequestBody [Http.Chunk.str "\x7b\"a\":1\x7d"] none).getLast? =
      some (utf8Decode (Http.finalChunks [Http.Chunk.str "\x7b\"a\":1\x7d"] none).flatten) :=
  (tap_callback_invocations [Http.Chunk.str "\x7b\"a\":1\x7d"] none).2 (by decide)

/-! ## C2 -/

/-- Every operation of the pre-call `try` section is an attribute write —
never a status update or a span end. -/
theorem requestSectionOps_attrs_only (options : FetchInterceptor.FetchOptions)
    (inp : FetchInterceptor.FetchInput) :
    ∀ op ∈ FetchInterceptor.requestSectionOps options inp,
      isEndSpan op = false ∧ isStatusOp op = false := by
  intro op hop
  simp only [FetchInterceptor.requestSectionOps] at hop
  rcases List.mem_append.mp hop with h | h
  · split at h
    · split at h
      · rw [List.mem_singleton] at h
        subst h
        exact ⟨rfl, rfl⟩
      · simp at h
    · simp at h
  · split at h
    · split at h
      · split at h
        · rw [List.mem_singleton] at h
          subst h
          exact ⟨rfl, rfl⟩
        · simp at h
      · simp at h
    · simp at h

/-- Claim **C2**: whenever the underlying `fetch` rejects with a value `e`, the
interceptor returns (rethrows) exactly that value, its status updates on
the span are exactly one `setStatus(ERROR, message-of-e)` (with `e.message`
for an `Error`), and the span is ended exactly once — no capture-layer
step replaces the error or adds a second status/end (the capture helpers
catch internally and are modelled total). -/
theorem fetch_error_passthrough (options : FetchInterceptor.FetchOptions)
    (inp : FetchInterceptor.FetchInput) (e : JsThrown)
    (h : inp.result = Except.error e) :
    (FetchInterceptor.interceptFetchRun options inp).2 = Except.error e ∧
    (FetchInterceptor.interceptFetchRun options inp).1.filter isEndSpan = [SpanOp.endSpan] ∧
    (FetchInterceptor.interceptFetchRun options inp).1.filter isStatusOp =
      [SpanOp.setStatusError (thrownMessage e)] := by
  have hsec := requestSectionOps_attrs_only options inp
  unfold FetchInterceptor.interceptFetchRun
  rw [h]
  refine ⟨rfl, ?_, ?_⟩
  · simp only [List.filter_append]
    rw [List.filter_eq_nil_iff.mpr (fun op hop => by
      simp [FetchInterceptor.initialOps] at hop
      subst hop
      simp [isEndSpan])]
    rw [List.filter_eq_nil_iff.mpr (fun op hop => by simp [(hsec op hop).1])]
    rfl
  · simp only [List.filter_append]
    rw [List.filter_eq_nil_iff.mpr (fun op hop => by
      simp [FetchInterceptor.initialOps] at hop
      subst hop
      simp [isStatusOp])]
    rw [List.filter_eq_nil_iff.mpr (fun op hop => by simp [(hsec op hop).2])]
    rfl

/-- Witness for C2 at a concrete failing call. -/
theorem fetch_error_passthrough_witness :
    (FetchInterceptor.interceptFetchRun ⟨true, true, true, 10000⟩
      ⟨"https://api.example.com/x", "https", "api.example.com", "POST",
        some [("content-type", "application/json")],
        some (FetchInterceptor.BodyInit.str "\x7b\"a\":1\x7d"),
        Except.error (JsThrown.error "connect ECONNREFUSED")⟩).2 =
      Except.error (JsThrown.error "connect ECONNREFUSED") ∧
    (FetchInterceptor.interceptFetchRun ⟨true, true, true, 10000⟩
      ⟨"https://api.example.com/x", "https", "api.example.com", "POST",
        some [("content-type", "application/json")],
        some (FetchInterceptor.BodyInit.str "\x7b\"a\":1\x7d"),
        Except.error (JsThrown.error "connect ECONNREFUSED")⟩).1.filter isEndSpan =
      [SpanOp.endSpan] ∧
    (FetchInterceptor.interceptFetchRun ⟨true, true, true, 10000⟩
      ⟨"https://api.example.com/x", "https", "api.example.com", "POST",
        some [("content-type", "application/json")],
        some (FetchInterceptor.BodyInit.str "\x7b\"a\":1\x7d"),
        Except.error (JsThrown.error "connect ECONNREFUSED")⟩).1.filter isStatusOp =
      [SpanOp.setStatusError "connect ECONNREFUSED"] :=
  fetch_error_passthrough ⟨true, true, true, 10000⟩
    ⟨"https://api.example.com/x", "https", "api.example.com", "POST",
      some [("content-type", "application/json")],
      some (FetchInterceptor.BodyInit.str "\x7b\"a\":1\x7d"),
      Except.error (JsThrown.error "connect ECONNREFUSED")⟩
    (JsThrown.error "connect ECONNREFUSED") rfl

/-! ## C7 -/

/-- Claim **C7**: for a payload whose content type contains `application/json`,
both codecs (`parseBodyText` of the fetch interceptor and `_parseBodySafe`
of the http instrumentation) return the structured value the JSON
semantics assigns to the bytes when they parse, and return the original
text unchanged when they do not; both are total functions, so no failure
escapes the codec boundary. -/
theorem json_content_type_decode (ct text : String) (headers : List (String × String))
    (hct : strIncludes ct "application/json" = true)
    (hdr : List.lookup "content-type" headers = some ct) :
    (∀ v, jsonParse text = some v →
      FetchInterceptor.parseBodyText text (some ct) = CapturedPayload.structured v ∧
      Http._parseBodySafe text headers = CapturedPayload.structured v) ∧
    (jsonParse text = none →
      FetchInterceptor.parseBodyText text (some ct) = CapturedPayload.text text ∧
      Http._parseBodySafe text headers = CapturedPayload.text text) := by
  have hne : ct ≠ "" := ne_empty_of_strIncludes (by decide) hct
  have hlow : strIncludes ct.toLower "application/json" = true :=
    strIncludes_toLower_of_strIncludes (by decide) hct
  constructor
  · intro v hv
    constructor
    · simp [FetchInterceptor.parseBodyText, hne, hlow, jsonFirst, hv]
    · simp [Http._parseBodySafe, hdr, hne, hct, jsonFirst, hv]
  · intro hv
    constructor
    · simp [FetchInterceptor.parseBodyText, hne, hlow, jsonFirst, hv]
    · simp [Http._parseBodySafe, hdr, hne, hct, jsonFirst, hv]

/-- Witness for C7: a valid and an invalid JSON payload under
`content-type: application/json`. -/
theorem json_content_type_decode_witness :
    (FetchInterceptor.parseBodyText "\x7b\"a\":1\x7d" (some "application/json") =
       CapturedPayload.structured (JsonValue.obj [("a", JsonValue.num "1")]) ∧
     Http._parseBodySafe "\x7b\"a\":1\x7d" [("content-type", "application/json")] =
       CapturedPayload.structured (JsonValue.obj [("a", JsonValue.num "1")])) ∧
    (FetchInterceptor.parseBodyText "not json" (some "application/json") =
       CapturedPayload.text "not json" ∧
     Http._parseBodySafe "not json" [("content-type", "application/json")] =
       CapturedPayload.text "not json") :=
  ⟨(json_content_type_decode "application/json" "\x7b\"a\":1\x7d"
      [("content-type", "application/json")] (by decide) rfl).1
      (JsonValue.obj [("a", JsonValue.num "1")]) rfl,
   (json_content_type_decode "application/json" "not json"
      [("content-type", "application/json")] (by decide) rfl).2 rfl⟩

/-! ## C8 -/

/-- Claim **C8** counterexample: a body of valid JSON bytes with no
`content-type` header is returned verbatim by the http codec
`_parseBodySafe` — no JSON parse is attempted, contradicting the claimed
JSON-first fallback (which only the fetch-interceptor codec implements). -/
theorem http_codec_no_content_type_returns_text :
    jsonParse "\x7b\"a\":1\x7d" = some (JsonValue.obj [("a", JsonValue.num "1")]) ∧
    Http._parseBodySafe "\x7b\"a\":1\x7d" [] = CapturedPayload.text "\x7b\"a\":1\x7d" :=
  ⟨rfl, rfl⟩

/-- Claim **C8** (amended): the fetch-interceptor codec `parseBodyText` attempts
a JSON parse first for an absent content type and for any unrecognized
content type, falling back to the raw text; the http codec
`_parseBodySafe`, however, returns the text verbatim — without attempting
JSON — whenever the content-type header is absent. -/
theorem codec_fallback_policy (text ct : String) (headers : List (String × String)) :
    (∀ v, jsonParse text = some v →
      FetchInterceptor.parseBodyText text none = CapturedPayload.structured v) ∧
    (jsonParse text = none →
      FetchInterceptor.parseBodyText text none = CapturedPayload.text text) ∧
    (ct ≠ "" →
     strIncludes ct.toLower "application/json" = false →
     strIncludes ct.toLower "application/x-www-form-urlencoded" = false →
     strIncludes ct.toLower "text/" = false →
      (∀ v, jsonParse text = some v →
        FetchInterceptor.parseBodyText text (some ct) = CapturedPayload.structured v) ∧
      (jsonParse text = none →
        FetchInterceptor.parseBodyText text (some ct) = CapturedPayload.text text)) ∧
    (List.lookup "content-type" headers = none →
      Http._parseBodySafe text headers = CapturedPayload.text text) := by
  refine ⟨?_, ?_, ?_, ?_⟩
  · intro v hv
    simp [FetchInterceptor.parseBodyText, jsonFirst, hv]
  · intro hv
    simp [FetchInterceptor.parseBodyText, jsonFirst, hv]
  · intro hne h1 h2 h3
    constructor
    · intro v hv
      simp [FetchInterceptor.parseBodyText, hne, h1, h2, h3, jsonFirst, hv]
    · intro hv
      simp [FetchInterceptor.parseBodyText, hne, h1, h2, h3, jsonFirst, hv]
  · intro hdr
    simp [Http._parseBodySafe, hdr]

/-- Witness for the amended C8 behavior: JSON bytes decode structured with
no content type in the fetch codec and with an unrecognized content type,
and come back verbatim from the http codec. -/
theorem codec_fallback_policy_witness :
    FetchInterceptor.parseBodyText "\x7b\"a\":1\x7d" none =
      CapturedPayload.structured (JsonValue.obj [("a", JsonValue.num "1")]) ∧
    FetchInterceptor.parseBodyText "\x7b\"a\":1\x7d" (some "application/vnd.custom") =
      CapturedPayload.structured (JsonValue.obj [("a", JsonValue.num "1")]) ∧
    Http._parseBodySafe "\x7b\"a\":1\x7d" [("accept", "x")] =
      CapturedPayload.text "\x7b\"a\":1\x7d" :=
  ⟨(codec_fallback_policy "\x7b\"a\":1\x7d" "application/vnd.custom" [("accept", "x")]).1
      (JsonValue.obj [("a", JsonValue.num "1")]) rfl,
   ((codec_fallback_policy "\x7b\"a\":1\x7d" "application/vnd.custom" [("accept", "x")]).2.2.1
      (by decide) (by rw [toLower_eq_map]; decide) (by rw [toLower_eq_map]; decide)
      (by rw [toLower_eq_map]; decide)).1
      (JsonValue.obj [("a", JsonValue.num "1")]) rfl,
   (codec_fallback_policy "\x7b\"a\":1\x7d" "application/vnd.custom" [("accept", "x")]).2.2.2
      rfl⟩

/-! ## C5 -/

/-- Is a captured payload one of the diagnostic truncation/binary shapes
(as opposed to decoded `text`/`structured` content)? -/
def isTruncOrBinary : CapturedPayload → Bool
  | CapturedPayload.truncated _ _ _ => true
  | CapturedPayload.binaryData _ _ => true
  | CapturedPayload.binaryContent _ _ _ => true
  | _ => false

/-- Claim **C5** counterexample: a 3-byte `Uint8Array` request body under a
2-byte limit is decoded and returned as `Text` — the byte-buffer branch of
`captureRequestBody` has no size check at all, so an over-limit payload is
emitted as decoded content, contradicting the claim that it is always
`Truncated`/`Binary`. -/
theorem oversize_buffer_body_decoded :
    List.length [97, 97, 97] > 2 ∧
    FetchInterceptor.captureRequestBody 2 (FetchInterceptor.BodyInit.bytes [97, 97, 97]) none =
      CapturedPayload.text "aaa" ∧
    isTruncOrBinary (FetchInterceptor.captureRequestBody 2
      (FetchInterceptor.BodyInit.bytes [97, 97, 97]) none) = false :=
  ⟨by decide, rfl, rfl⟩

/-- Claim **C5** (amended): the size budget holds on the paths that implement
it — a string request body longer than the limit yields the `Truncated`
marker, a response body whose text exceeds the limit (or whose declared
length does, or whose content type is binary) yields a
`Truncated`/`Binary` marker and never decoded content, and the undici
variant refuses capture entirely for over-limit bodies; byte-buffer
request bodies, however, bypass the size check (only the binary heuristic
applies to them). -/
theorem oversize_capture_policy (maxBodySize : Nat) (s : String)
    (headers : Option (List (String × String))) (r : FetchInterceptor.RespBody) (t : String)
    (ct : Option String) (b : Undici.UndiciBody) :
    (s.length > maxBodySize →
      FetchInterceptor.captureRequestBody maxBodySize (FetchInterceptor.BodyInit.str s) headers =
        CapturedPayload.truncated s.length (some (s.take 100)) none) ∧
    (r.textResult = Except.ok t → t.length > maxBodySize →
      isTruncOrBinary (FetchInterceptor.captureResponseBody maxBodySize r) = true) ∧
    (Undici.getBodySize b > maxBodySize →
      Undici.shouldCaptureBody maxBodySize ct b = false) := by
  refine ⟨?_, ?_, ?_⟩
  · intro h
    simp [FetchInterceptor.captureRequestBody, h]
  · intro htext h
    unfold FetchInterceptor.captureResponseBody
    rw [htext]
    split
    · next x msg heq => exact absurd heq (by simp)
    · next x text heq =>
      injection heq with heq2
      subst heq2
      split
      · dsimp only
        split
        · rfl
        · split
          · rfl
          · rfl
      · next hcontra => exact absurd h hcontra
  · intro h
    unfold Undici.shouldCaptureBody
    split
    · rfl
    · split
      · rfl
      · split
        · rfl
        · simp [h]

/-- Witness for the amended C5 theorem at concrete over-limit payloads. -/
theorem oversize_capture_policy_witness :
    FetchInterceptor.captureRequestBody 2 (FetchInterceptor.BodyInit.str "aaa") none =
      CapturedPayload.truncated 3 (some "aaa") none ∧
    isTruncOrBinary (FetchInterceptor.captureResponseBody 2 ⟨some "", some "0", Except.ok "aaaa"⟩) =
      true ∧
    Undici.shouldCaptureBody 2 none (Undici.UndiciBody.str "aaa") = false :=
  ⟨(oversize_capture_policy 2 "aaa" none ⟨some "", some "0", Except.ok "aaaa"⟩ "aaaa" none
      (Undici.UndiciBody.str "aaa")).1 (by decide),
   (oversize_capture_policy 2 "aaa" none ⟨some "", some "0", Except.ok "aaaa"⟩ "aaaa" none
      (Undici.UndiciBody.str "aaa")).2.1 rfl (by decide),
   (oversize_capture_policy 2 "aaa" none ⟨some "", some "0", Except.ok "aaaa"⟩ "aaaa" none
      (Undici.UndiciBody.str "aaa")).2.2 (by decide)⟩

/-! ## Attribute-key lemmas for the http hooks (C6, C10) -/

/-- Model of `opsKeys` distributes over append. -/
theorem opsKeys_append (a b : List SpanOp) : opsKeys (a ++ b) = opsKeys a ++ opsKeys b := by
  simp [opsKeys]

/-- Keys produced by `strAssign` satisfy any predicate holding of the
accumulator's keys and the new key. -/
theorem strAssign_keys_pred (P : String → Prop) (l : List (String × String)) (k v : String)
    (hl : ∀ p ∈ l, P p.1) (hk : P k) : ∀ p ∈ strAssign l k v, P p.1 := by
  intro p hp
  unfold strAssign at hp
  split at hp
  · obtain ⟨q, hq, hqe⟩ := List.mem_map.mp hp
    by_cases hqk : q.1 = k
    · rw [if_pos hqk] at hqe
      subst hqe
      exact hk
    · rw [if_neg hqk] at hqe
      subst hqe
      exact hl q hq
  · rcases List.mem_append.mp hp with h | h
    · exact hl p h
    · rw [List.mem_singleton] at h
      subst h
      exact hk

/-- Every key `addClaims` adds has the `token.` prefix. -/
theorem addClaims_keys_pred (P : String → Prop) (jwt : List (String × String))
    (claims : JsonValue) (hj : ∀ p ∈ jwt, P p.1) (hP : ∀ k, P ("token." ++ k)) :
    ∀ p ∈ addClaims jwt claims, P p.1 := by
  unfold addClaims
  generalize jsEntries claims = entries
  induction entries generalizing jwt with
  | nil => exact hj
  | cons kv rest ih =>
    rw [List.foldl_cons]
    cases hs : scalarString kv.2 with
    | none =>
      simp only [hs]
      exact ih jwt hj
    | some s =>
      simp only [hs]
      exact ih _ (strAssign_keys_pred P jwt _ _ hj (hP kv.1))

/-- The claim record of one redaction step is the accumulated record,
possibly extended by `addClaims`. -/
theorem redactEntry_snd (sl : List String)
    (acc : List (String × String) × List (String × String)) (kv : String × String) :
    (redactEntry sl acc kv).2 = acc.2 ∨
    ∃ claims, (redactEntry sl acc kv).2 = addClaims acc.2 claims := by
  unfold redactEntry
  dsimp only
  repeat' split
  all_goals first
    | (left; rfl)
    | (right; exact ⟨_, rfl⟩)

/-- The claim record produced by one redaction step keeps the key
predicate. -/
theorem redactEntry_snd_pred (P : String → Prop) (sl : List String)
    (acc : List (String × String) × List (String × String)) (kv : String × String)
    (h : ∀ p ∈ acc.2, P p.1) (hP : ∀ k, P ("token." ++ k)) :
    ∀ p ∈ (redactEntry sl acc kv).2, P p.1 := by
  rcases redactEntry_snd sl acc kv with heq | ⟨claims, heq⟩
  · rw [heq]
    exact h
  · rw [heq]
    exact addClaims_keys_pred P acc.2 claims h hP

/-- Every key of the claim record produced by `redactSensitiveHeaders`
has the `token.` prefix. -/
theorem redact_claims_keys (sl : List String) (headers : List (String × String)) :
    ∀ p ∈ (redactSensitiveHeaders sl headers).2, ∃ k, p.1 = "token." ++ k := by
  unfold redactSensitiveHeaders
  have main : ∀ (hs : List (String × String))
      (acc : List (String × String) × List (String × String)),
      (∀ p ∈ acc.2, ∃ k, p.1 = "token." ++ k) →
      ∀ p ∈ (hs.foldl (redactEntry sl) acc).2, ∃ k, p.1 = "token." ++ k := by
    intro hs
    induction hs with
    | nil => intro acc hacc; exact hacc
    | cons kv rest ih =>
      intro acc hacc
      rw [List.foldl_cons]
      exact ih _ (redactEntry_snd_pred (fun key => ∃ k, key = "token." ++ k) sl acc kv hacc
        (fun k => ⟨k, rfl⟩))
  exact main headers ([], []) (by simp)

/-- A `token.`-prefixed key is not `request.body`. -/
theorem token_key_ne_request_body (k : String) : "token." ++ k ≠ "request.body" := by
  intro h
  have h2 := congrArg String.data h
  rw [string_data_append] at h2
  rw [show "token.".data = ['t', 'o', 'k', 'e', 'n', '.'] from rfl,
    show "request.body".data = ['r', 'e', 'q', 'u', 'e', 's', 't', '.', 'b', 'o', 'd', 'y']
      from rfl] at h2
  simp at h2

/-- A `token.`-prefixed key is not `response.body`. -/
theorem token_key_ne_response_body (k : String) : "token." ++ k ≠ "response.body" := by
  intro h
  have h2 := congrArg String.data h
  rw [string_data_append] at h2
  rw [show "token.".data = ['t', 'o', 'k', 'e', 'n', '.'] from rfl,
    show "response.body".data =
      ['r', 'e', 's', 'p', 'o', 'n', 's', 'e', '.', 'b', 'o', 'd', 'y'] from rfl] at h2
  simp at h2

/-- A `request.headers.`-prefixed key is not `request.body`. -/
theorem req_header_key_ne_request_body (k : String) :
    "request.headers." ++ k ≠ "request.body" := by
  intro h
  have h2 := congrArg String.data h
  rw [string_data_append] at h2
  rw [show "request.headers.".data =
      ['r', 'e', 'q', 'u', 'e', 's', 't', '.', 'h', 'e', 'a', 'd', 'e', 'r', 's', '.']
      from rfl,
    show "request.body".data = ['r', 'e', 'q', 'u', 'e', 's', 't', '.', 'b', 'o', 'd', 'y']
      from rfl] at h2
  simp at h2

/-- A `response.headers.`-prefixed key is not `response.body`. -/
theorem resp_header_key_ne_response_body (k : String) :
    "response.headers." ++ k ≠ "response.body" := by
  intro h
  have h2 := congrArg String.data h
  rw [string_data_append] at h2
  rw [show "response.headers.".data =
      ['r', 'e', 's', 'p', 'o', 'n', 's', 'e', '.', 'h', 'e', 'a', 'd', 'e', 'r', 's', '.']
      from rfl,
    show "response.body".data =
      ['r', 'e', 's', 'p', 'o', 'n', 's', 'e', '.', 'b', 'o', 'd', 'y'] from rfl] at h2
  simp at h2

/-- Shape of every key a header-capture block sets: either under the
given namespace or a `token.` claim key. -/
theorem headerCaptureOps_keys (ns : String) (headers : List (String × String)) (key : String)
    (h : key ∈ opsKeys (Http.headerCaptureOps ns headers)) :
    (∃ k, key = ns ++ k) ∨ (∃ k, key = "token." ++ k) := by
  unfold Http.headerCaptureOps at h
  rw [opsKeys_append] at h
  rcases List.mem_append.mp h with h1 | h1
  · left
    simp only [opsKeys, attrKeysOf, List.map_cons, List.map_nil, List.flatten,
      List.append_nil, List.map_map] at h1
    obtain ⟨kv, hkv, hkey⟩ := List.mem_map.mp h1
    exact ⟨kv.1, hkey.symm⟩
  · right
    split at h1
    · simp only [opsKeys, attrKeysOf, List.map_cons, List.map_nil, List.flatten,
        List.append_nil, List.map_map] at h1
      obtain ⟨kv, hkv, hkey⟩ := List.mem_map.mp h1
      obtain ⟨k, hk⟩ := redact_claims_keys _ headers kv hkv
      exact ⟨k, by rw [← hkey]; exact hk⟩
    · simp [opsKeys] at h1

/-- Membership in `opsKeys` through the contributing operation. -/
theorem mem_opsKeys (key : String) (ops : List SpanOp) :
    key ∈ opsKeys ops ↔ ∃ op ∈ ops, key ∈ attrKeysOf op := by
  simp [opsKeys, List.mem_flatten]

/-- Every attribute key the request hook can set: a fixed
provenance/plugin key, a flattened request-header key, a `token.` claim
key, or — only when the governing body-capture switch is on and the tap
fired — `request.body`. -/
theorem requestHookOps_keys (options : Http.HookOptions) (plugin : Option Http.PluginCfg)
    (host : String) (headers : List (String × String)) (writes : List Http.Chunk)
    (endData : Option Http.Chunk) (key : String)
    (h : key ∈ opsKeys (Http.requestHookOps options plugin host headers writes endData)) :
    key ∈ ["kubiks.otel.source", "kubiks.otel.version", "kubiks.otel.instrumentation",
           "http.plugin.name"] ∨
    (∃ k, key = "request.headers." ++ k) ∨ (∃ k, key = "token." ++ k) ∨
    (key = "request.body" ∧ Http.getClientRequestBody writes endData ≠ [] ∧
      (match plugin with
       | some p => p.captureBody = true
       | none => (options.captureBody && Http.shouldCaptureBody host) = true)) := by
  unfold Http.requestHookOps at h
  rw [opsKeys_append] at h
  rcases List.mem_append.mp h with h1 | h1
  · left
    simp [opsKeys, attrKeysOf, Http.provenanceAttrs] at h1
    simp only [List.mem_cons, List.mem_singleton]
    tauto
  · cases plugin with
    | some p =>
      simp only at h1
      rw [opsKeys_append, opsKeys_append] at h1
      rcases List.mem_append.mp h1 with h2 | h2
      · rcases List.mem_append.mp h2 with h3 | h3
        · left
          simp [opsKeys, attrKeysOf] at h3
          simp [h3]
        · split at h3
          · rcases headerCaptureOps_keys _ headers key h3 with hk | hk
            · right; left; exact hk
            · right; right; left; exact hk
          · simp [opsKeys] at h3
      · split at h2
        · rw [mem_opsKeys] at h2
          obtain ⟨op, hop, hkey⟩ := h2
          obtain ⟨b, hb, rfl⟩ := List.mem_map.mp hop
          simp only [Http.requestBodyOp, attrKeysOf, List.mem_singleton] at hkey
          subst hkey
          right; right; right
          exact ⟨rfl, List.ne_nil_of_mem hb, by assumption⟩
        · simp [opsKeys] at h2
    | none =>
      simp only at h1
      rw [opsKeys_append] at h1
      rcases List.mem_append.mp h1 with h2 | h2
      · split at h2
        · rcases headerCaptureOps_keys _ headers key h2 with hk | hk
          · right; left; exact hk
          · right; right; left; exact hk
        · simp [opsKeys] at h2
      · split at h2
        · rw [mem_opsKeys] at h2
          obtain ⟨op, hop, hkey⟩ := h2
          obtain ⟨b, hb, rfl⟩ := List.mem_map.mp hop
          simp only [Http.requestBodyOp, attrKeysOf, List.mem_singleton] at hkey
          subst hkey
          right; right; right
          exact ⟨rfl, List.ne_nil_of_mem hb, by assumption⟩
        · simp [opsKeys] at h2

/-- Every attribute key the response hook can set: a flattened
response-header key, a `token.` claim key, or — only when body capture is
on, the URL passes the ignored-host check and the tap delivered data —
`response.body`. -/
theorem responseHookOps_keys (options : Http.HookOptions) (url : String)
    (headers : List (String × String)) (chunks : List Http.Chunk) (key : String)
    (h : key ∈ opsKeys (Http.responseHookOps options url headers chunks)) :
    (∃ k, key = "response.headers." ++ k) ∨ (∃ k, key = "token." ++ k) ∨
    (key = "response.body" ∧ chunks ≠ [] ∧
      (options.captureBody && Http.shouldCaptureBody url) = true) := by
  unfold Http.responseHookOps at h
  rw [opsKeys_append] at h
  rcases List.mem_append.mp h with h1 | h1
  · split at h1
    · rcases headerCaptureOps_keys _ headers key h1 with hk | hk
      · left; exact hk
      · right; left; exact hk
    · simp [opsKeys] at h1
  · split at h1
    · split at h1
      · next x b heq =>
        simp [opsKeys, attrKeysOf] at h1
        right; right
        refine ⟨h1, ?_, by assumption⟩
        intro hc
        rw [hc] at heq
        simp [Http.getClientResponseBody] at heq
      · simp [opsKeys] at h1
    · simp [opsKeys] at h1

/-! ## C10 -/

/-- Claim **C10**: a body that completes empty produces no body attribute.  The
writer tap fires no callback when `end()` arrives with no data after no
writes, the reader tap fires none when zero chunks were delivered, and
consequently neither hook sets a `request.body`/`response.body` attribute
(rather than setting one with an empty value) — under every option and
plugin configuration. -/
theorem empty_body_sets_no_attribute (options : Http.HookOptions)
    (plugin : Option Http.PluginCfg) (host url : String)
    (headers rheaders : List (String × String)) :
    Http.getClientRequestBody [] none = [] ∧
    Http.getClientResponseBody [] = none ∧
    "request.body" ∉ opsKeys (Http.requestHookOps options plugin host headers [] none) ∧
    "response.body" ∉ opsKeys (Http.responseHookOps options url rheaders []) := by
  refine ⟨rfl, rfl, ?_, ?_⟩
  · intro h
    rcases requestHookOps_keys options plugin host headers [] none _ h with h1 | h1 | h1 | h1
    · simp at h1
    · obtain ⟨k, hk⟩ := h1
      exact req_header_key_ne_request_body k hk.symm
    · obtain ⟨k, hk⟩ := h1
      exact token_key_ne_request_body k hk.symm
    · exact h1.2.1 rfl
  · intro h
    rcases responseHookOps_keys options url rheaders [] _ h with h1 | h1 | h1
    · obtain ⟨k, hk⟩ := h1
      exact resp_header_key_ne_response_body k hk.symm
    · obtain ⟨k, hk⟩ := h1
      exact token_key_ne_response_body k hk.symm
    · exact h1.2.1 rfl

/-! ## C6 -/

/-- Claim **C6** counterexample: for a call to the ignored host `localhost`
whose client response carries no `url` (`response.url || ''` is empty, as
it is for every client `IncomingMessage`), the request hook suppresses
`request.body` but the response hook still sets `response.body` — the
claim that no body attribute at all is set for a call to an ignored host
is false. -/
theorem ignored_host_response_body_captured :
    strIncludes "localhost" "localhost" = true ∧
    "request.body" ∉ opsKeys (Http.requestHookOps ⟨false, true⟩ none "localhost" []
      [Http.Chunk.str "x"] none) ∧
    "response.body" ∈ opsKeys (Http.responseHookOps ⟨false, true⟩ "" [] [Http.Chunk.str "x"]) := by
  exact ⟨by decide, by decide, by decide⟩

/-- Claim **C6** (amended): request-body capture is suppressed (never sets
`request.body`) when the request host contains an ignored-host entry, in
the plugin-less path; response-body capture is suppressed when the string
consulted by the response hook — `response.url || ''`, not the request
host — contains an ignored entry.  The two checks are independent, so a
call to an ignored host whose response URL is empty still gets a
`response.body` attribute, and a matched plugin bypasses the host check on
the request side.  The hook still runs: the provenance attributes are
set. -/
theorem ignored_host_capture_suppressed (options : Http.HookOptions) (host url : String)
    (headers rheaders : List (String × String)) (writes : List Http.Chunk)
    (endData : Option Http.Chunk) (chunks : List Http.Chunk)
    (hhost : ∃ ih ∈ Http.ignoredHosts, strIncludes host ih = true)
    (hurl : ∃ ih ∈ Http.ignoredHosts, strIncludes url ih = true) :
    "request.body" ∉ opsKeys (Http.requestHookOps options none host headers writes endData) ∧
    "response.body" ∉ opsKeys (Http.responseHookOps options url rheaders chunks) ∧
    "kubiks.otel.source" ∈
      opsKeys (Http.requestHookOps options none host headers writes endData) := by
  have hh : Http.shouldCaptureBody host = false := by
    unfold Http.shouldCaptureBody
    obtain ⟨ih, hmem, hinc⟩ := hhost
    simp [List.any_eq_true]
    exact ⟨ih, hmem, hinc⟩
  have hu : Http.shouldCaptureBody url = false := by
    unfold Http.shouldCaptureBody
    obtain ⟨ih, hmem, hinc⟩ := hurl
    simp [List.any_eq_true]
    exact ⟨ih, hmem, hinc⟩
  refine ⟨?_, ?_, ?_⟩
  · intro h
    rcases requestHookOps_keys options none host headers writes endData _ h with h1 | h1 | h1 | h1
    · simp at h1
    · obtain ⟨k, hk⟩ := h1
      exact req_header_key_ne_request_body k hk.symm
    · obtain ⟨k, hk⟩ := h1
      exact token_key_ne_request_body k hk.symm
    · have h2 := h1.2.2
      rw [hh] at h2
      simp at h2
  · intro h
    rcases responseHookOps_keys options url rheaders chunks _ h with h1 | h1 | h1
    · obtain ⟨k, hk⟩ := h1
      exact resp_header_key_ne_response_body k hk.symm
    · obtain ⟨k, hk⟩ := h1
      exact token_key_ne_response_body k hk.symm
    · have h2 := h1.2.2
      rw [hu] at h2
      simp at h2
  · unfold Http.requestHookOps
    rw [opsKeys_append]
    apply List.mem_append.mpr
    left
    simp [opsKeys, attrKeysOf, Http.provenanceAttrs]

/-- Witness for the amended C6 theorem at an ignored host and an ignored
collector URL. -/
theorem ignored_host_capture_suppressed_witness :
    "request.body" ∉ opsKeys (Http.requestHookOps ⟨true, true⟩ none "localhost"
      [("content-type", "application/json")] [Http.Chunk.str "\x7b\"a\":1\x7d"] none) ∧
    "response.body" ∉ opsKeys (Http.responseHookOps ⟨true, true⟩
      "https://otlp.kubiks.ai/v1/traces" [] [Http.Chunk.str "x"]) ∧
    "kubiks.otel.source" ∈ opsKeys (Http.requestHookOps ⟨true, true⟩ none "localhost"
      [("content-type", "application/json")] [Http.Chunk.str "\x7b\"a\":1\x7d"] none) :=
  ignored_host_capture_suppressed ⟨true, true⟩ "localhost" "https://otlp.kubiks.ai/v1/traces"
    [("content-type", "application/json")] [] [Http.Chunk.str "\x7b\"a\":1\x7d"] none
    [Http.Chunk.str "x"] (by decide) (by decide)

/-! ## C9 -/

namespace Lambda

/-- The expected link contribution of one list element: a link built from
the dash-separated fields of the first truthy `traceparent` string found
at the recognized locations, and nothing when it is absent or falsy. -/
def elemLink (e : JsonValue) : Option LinkCtx :=
  match tpChain e with
  | some (JsonValue.str tp) =>
    if tp ≠ "" then
      some ⟨(jsSplit '-' tp)[1]?, (jsSplit '-' tp)[2]?, jsNumber (jsSplit '-' tp)[3]?⟩
    else none
  | _ => none

/-- An element within the claim's scope: not `null` (a null element would
make the property access throw) and carrying, if anything truthy at the
`traceparent` locations, a string (a truthy non-string would make
`.split` throw). -/
def StepElemOk (e : JsonValue) : Prop :=
  e ≠ JsonValue.null ∧
    (optTruthy (tpChain e) = true → ∃ s, tpChain e = some (JsonValue.str s))

end Lambda

/-- For an in-scope element the callback returns exactly the expected
optional link. -/
theorem stepLinkBody_ok (e : JsonValue)
    (htp : Lambda.optTruthy (Lambda.tpChain e) = true →
      ∃ s, Lambda.tpChain e = some (JsonValue.str s)) :
    Lambda.stepLinkBody e = Except.ok (Lambda.elemLink e) := by
  unfold Lambda.stepLinkBody Lambda.elemLink
  rcases htp2 : Lambda.tpChain e with _ | v
  · rfl
  · rcases v with _ | b | lit | s | l | flds
    · rfl
    · cases b with
      | false => simp [jsTruthy]
      | true =>
        obtain ⟨s, hs⟩ := htp (by rw [htp2]; rfl)
        rw [htp2] at hs
        simp at hs
    · by_cases hz : numLitIsZero lit
      · simp [jsTruthy, hz]
      · obtain ⟨s, hs⟩ := htp (by rw [htp2]; simp [Lambda.optTruthy, jsTruthy, hz])
        rw [htp2] at hs
        simp at hs
    · by_cases hs : s = "" <;> simp [hs]
    · obtain ⟨s, hs⟩ := htp (by rw [htp2]; rfl)
      rw [htp2] at hs
      simp at hs
    · obtain ⟨s, hs⟩ := htp (by rw [htp2]; rfl)
      rw [htp2] at hs
      simp at hs

/-- A non-null element reaches the callback body. -/
theorem stepLinkOf_eq_body (e : JsonValue) (hne : e ≠ JsonValue.null) :
    Lambda.stepLinkOf e = Lambda.stepLinkBody e := by
  cases e
  case null => exact absurd rfl hne
  all_goals rfl

/-- The whole map succeeds elementwise on in-scope elements. -/
theorem jsMapThrow_ok (event : List JsonValue) (h : ∀ e ∈ event, Lambda.StepElemOk e) :
    Lambda.jsMapThrow event = Except.ok (event.map Lambda.elemLink) := by
  induction event with
  | nil => rfl
  | cons e rest ih =>
    obtain ⟨hne, htp⟩ := h e (List.mem_cons_self e rest)
    have hstep : Lambda.stepLinkOf e = Except.ok (Lambda.elemLink e) := by
      rw [stepLinkOf_eq_body e hne]
      exact stepLinkBody_ok e htp
    have hrest := ih (fun x hx => h x (List.mem_cons_of_mem _ hx))
    simp [Lambda.jsMapThrow, hstep, hrest]

/-- Model of `elemLink` produces a link exactly for elements whose `traceparent`
chain is truthy, within the claim's scope. -/
theorem elemLink_isSome (e : JsonValue)
    (htp : Lambda.optTruthy (Lambda.tpChain e) = true →
      ∃ s, Lambda.tpChain e = some (JsonValue.str s)) :
    (Lambda.elemLink e).isSome = Lambda.optTruthy (Lambda.tpChain e) := by
  unfold Lambda.elemLink
  rcases htp2 : Lambda.tpChain e with _ | v
  · rfl
  · rcases v with _ | b | lit | s | l | flds
    · rfl
    · cases b with
      | false => rfl
      | true =>
        obtain ⟨s, hs⟩ := htp (by rw [htp2]; rfl)
        rw [htp2] at hs
        simp at hs
    · by_cases hz : numLitIsZero lit
      · simp [Lambda.optTruthy, jsTruthy, hz]
      · obtain ⟨s, hs⟩ := htp (by rw [htp2]; simp [Lambda.optTruthy, jsTruthy, hz])
        rw [htp2] at hs
        simp at hs
    · by_cases hs : s = "" <;> simp [hs, Lambda.optTruthy, jsTruthy]
    · obtain ⟨s, hs⟩ := htp (by rw [htp2]; rfl)
      rw [htp2] at hs
      simp at hs
    · obtain ⟨s, hs⟩ := htp (by rw [htp2]; rfl)
      rw [htp2] at hs
      simp at hs

/-- Claim **C9**: on a step-function list event whose elements are in the
claim's scope, context extraction returns exactly one causal link per
element carrying a truthy embedded `traceparent` string at one of the
recognized locations — each link taking `traceId`, `spanId` and
`traceFlags` from the 2nd, 3rd and 4th dash-separated fields — and skips
the elements where it is absent; in particular the number of links is the
number of elements carrying one. -/
theorem step_function_links_per_element (event : List JsonValue)
    (h : ∀ e ∈ event, Lambda.StepElemOk e) :
    Lambda.extractStepFunctionLinks event = Except.ok (event.filterMap Lambda.elemLink) ∧
    (event.filterMap Lambda.elemLink).length =
      (event.filter (fun e => Lambda.optTruthy (Lambda.tpChain e))).length := by
  constructor
  · unfold Lambda.extractStepFunctionLinks
    rw [jsMapThrow_ok event h]
    simp [List.filterMap_map, Function.comp]
  · induction event with
    | nil => rfl
    | cons e rest ih =>
      have hs := elemLink_isSome e (h e (List.mem_cons_self e rest)).2
      have ihlen := ih (fun x hx => h x (List.mem_cons_of_mem _ hx))
      rw [List.filterMap_cons, List.filter_cons]
      cases hsome : Lambda.elemLink e with
      | none =>
        rw [hsome] at hs
        simp only [Option.isSome_none] at hs
        simp [← hs, ihlen]
      | some link =>
        rw [hsome] at hs
        simp only [Option.isSome_some] at hs
        simp [← hs, ihlen]

/-- Witness for C9: a 3-element event with two valid embedded
`traceparent`s and one element without yields exactly 2 links. -/
theorem step_function_links_per_element_witness :
    Lambda.extractStepFunctionLinks
      [JsonValue.obj [("_kubiks", JsonValue.obj [("traceparent",
          JsonValue.str "00-4bf92f3577b34da6a3ce929d0e0e4736-00f067aa0ba902b7-01")])],
       JsonValue.obj [("other", JsonValue.num "1")],
       JsonValue.obj [("Payload", JsonValue.obj [("_kubiks", JsonValue.obj [("traceparent",
          JsonValue.str "00-aaaabbbbccccddddeeeeffff00001111-2222333344445555-01")])])]] =
      Except.ok
        ([JsonValue.obj [("_kubiks", JsonValue.obj [("traceparent",
            JsonValue.str "00-4bf92f3577b34da6a3ce929d0e0e4736-00f067aa0ba902b7-01")])],
          JsonValue.obj [("other", JsonValue.num "1")],
          JsonValue.obj [("Payload", JsonValue.obj [("_kubiks", JsonValue.obj [("traceparent",
            JsonValue.str "00-aaaabbbbccccddddeeeeffff00001111-2222333344445555-01")])])]].filterMap
          Lambda.elemLink) ∧
    ([JsonValue.obj [("_kubiks", JsonValue.obj [("traceparent",
        JsonValue.str "00-4bf92f3577b34da6a3ce929d0e0e4736-00f067aa0ba902b7-01")])],
      JsonValue.obj [("other", JsonValue.num "1")],
      JsonValue.obj [("Payload", JsonValue.obj [("_kubiks", JsonValue.obj [("traceparent",
        JsonValue.str "00-aaaabbbbccccddddeeeeffff00001111-2222333344445555-01")])])]].filterMap
      Lambda.elemLink).length = 2 := by
  have h := step_function_links_per_element
    [JsonValue.obj [("_kubiks", JsonValue.obj [("traceparent",
        JsonValue.str "00-4bf92f3577b34da6a3ce929d0e0e4736-00f067aa0ba902b7-01")])],
     JsonValue.obj [("other", JsonValue.num "1")],
     JsonValue.obj [("Payload", JsonValue.obj [("_kubiks", JsonValue.obj [("traceparent",
        JsonValue.str "00-aaaabbbbccccddddeeeeffff00001111-2222333344445555-01")])])]]
    (by
      intro e he
      simp only [List.mem_cons, List.mem_singleton] at he
      rcases he with rfl | rfl | rfl | he
      · exact ⟨fun hx => by simp at hx,
          fun _ => ⟨"00-4bf92f3577b34da6a3ce929d0e0e4736-00f067aa0ba902b7-01", rfl⟩⟩
      · exact ⟨fun hx => by simp at hx, fun hx => by exact absurd hx (by decide)⟩
      · exact ⟨fun hx => by simp at hx,
          fun _ => ⟨"00-aaaabbbbccccddddeeeeffff00001111-2222333344445555-01", rfl⟩⟩
      · exact absurd he (List.not_mem_nil e))
  exact ⟨h.1, rfl⟩

/-! ## C3 -/

/-- Model of `expectLit` only returns the value it was given. -/
theorem expectLit_some {lit rest : List Char} {v0 v : JsonValue} {r : List Char}
    (h : expectLit lit rest v0 = some (v, r)) : v = v0 := by
  unfold expectLit at h
  split at h
  · injection h with h1
    injection h1 with h2
    exact h2.symm
  · simp at h

/-- The `obj` payloads a value can be, with distinct keys. -/
def TopNodup (v : JsonValue) : Prop :=
  ∀ o, v = JsonValue.obj o → (o.map Prod.fst).Nodup

/-- Inserting preserves or appends a fresh key. -/
theorem objInsert_keys (l : List (String × JsonValue)) (k : String) (v : JsonValue) :
    (objInsert l k v).map Prod.fst = l.map Prod.fst ∨
    ((objInsert l k v).map Prod.fst = l.map Prod.fst ++ [k] ∧ k ∉ l.map Prod.fst) := by
  unfold objInsert
  split
  · left
    rw [List.map_map]
    apply List.map_congr_left
    intro kv _
    by_cases hk : kv.1 = k
    · simp [hk]
    · simp [hk]
  · right
    next hany =>
      constructor
      · simp
      · intro hmem
        obtain ⟨kv, hkv, hfst⟩ := List.mem_map.mp hmem
        exact hany (List.any_eq_true.mpr ⟨kv, hkv, by simp [hfst]⟩)

/-- JS object assignment keeps keys distinct. -/
theorem objInsert_nodup {l : List (String × JsonValue)} (k : String) (v : JsonValue)
    (h : (l.map Prod.fst).Nodup) : ((objInsert l k v).map Prod.fst).Nodup := by
  rcases objInsert_keys l k v with he | ⟨he, hk⟩
  · rw [he]
    exact h
  · rw [he]
    simp [List.nodup_append, h, hk]

/-- Every JSON object the fuel parser returns (at the top level of the
returned value) has pairwise-distinct keys: each member is inserted with
JS assignment semantics. -/
theorem parser_top_nodup (fuel : Nat) :
    (∀ s v r, parseValueF fuel s = some (v, r) → TopNodup v) ∧
    (∀ s v r, parseObjStartF fuel s = some (v, r) → TopNodup v) ∧
    (∀ s acc v r, (acc.map Prod.fst).Nodup → parseObjTailF fuel s acc = some (v, r) →
      TopNodup v) ∧
    (∀ s v r, parseArrStartF fuel s = some (v, r) → TopNodup v) ∧
    (∀ s acc v r, parseArrTailF fuel s acc = some (v, r) → TopNodup v) := by
  induction fuel with
  | zero =>
    refine ⟨fun s v r h => ?_, fun s v r h => ?_, fun s acc v r hn h => ?_,
      fun s v r h => ?_, fun s acc v r h => ?_⟩ <;>
      simp [parseValueF, parseObjStartF, parseObjTailF, parseArrStartF, parseArrTailF] at h
  | succ n ih =>
    obtain ⟨ihv, ihos, ihot, ihas, ihat⟩ := ih
    refine ⟨?_, ?_, ?_, ?_, ?_⟩
    · intro s v r h
      simp only [parseValueF] at h
      split at h
      · simp at h
      · rw [expectLit_some h]
        intro o ho
        simp at ho
      · rw [expectLit_some h]
        intro o ho
        simp at ho
      · rw [expectLit_some h]
        intro o ho
        simp at ho
      · rw [Option.map_eq_some'] at h
        obtain ⟨p, hp, hv⟩ := h
        injection hv with hv1
        rw [← hv1]
        intro o ho
        simp at ho
      · exact ihos _ _ _ h
      · exact ihas _ _ _ h
      · rw [Option.map_eq_some'] at h
        obtain ⟨p, hp, hv⟩ := h
        injection hv with hv1
        rw [← hv1]
        intro o ho
        simp at ho
    · intro s v r h
      simp only [parseObjStartF] at h
      split at h
      · injection h with h1
        injection h1 with h2
        rw [← h2]
        intro o ho
        injection ho with ho2
        rw [← ho2]
        simp
      · split at h
        · next k v0 rest heq =>
          apply ihot _ _ _ _ _ h
          have : objInsert [] k v0 = [(k, v0)] := rfl
          rw [this]
          simp
        · simp at h
    · intro s acc v r hn h
      simp only [parseObjTailF] at h
      split at h
      · injection h with h1
        injection h1 with h2
        rw [← h2]
        intro o ho
        injection ho with ho2
        rw [← ho2]
        exact hn
      · split at h
        · next k v0 rest heq =>
          exact ihot _ _ _ _ (objInsert_nodup k v0 hn) h
        · simp at h
      · simp at h
    · intro s v r h
      simp only [parseArrStartF] at h
      split at h
      · injection h with h1
        injection h1 with h2
        rw [← h2]
        intro o ho
        simp at ho
      · split at h
        · exact ihat _ _ _ _ h
        · simp at h
    · intro s acc v r h
      simp only [parseArrTailF] at h
      split at h
      · injection h with h1
        injection h1 with h2
        rw [← h2]
        intro o ho
        simp at ho
      · split at h
        · exact ihat _ _ _ _ h
        · simp at h
      · simp at h

/-- Model of `JSON.parse` never yields an object with duplicate keys. -/
theorem jsonParse_obj_nodup {s : String} {o : List (String × JsonValue)}
    (h : jsonParse s = some (JsonValue.obj o)) : (o.map Prod.fst).Nodup := by
  unfold jsonParse at h
  split at h
  · next p heq =>
    split at h
    · injection h with h1
      exact (parser_top_nodup _).1 _ _ _ heq o (by rw [h1])
    · simp at h
  · simp at h

/-- Assignment of a fresh key appends. -/
theorem strAssign_not_mem (l : List (String × String)) (k v : String)
    (h : k ∉ l.map Prod.fst) : strAssign l k v = l ++ [(k, v)] := by
  unfold strAssign
  rw [if_neg]
  intro hany
  rw [List.any_eq_true] at hany
  obtain ⟨kv, hkv, hk⟩ := hany
  rw [beq_iff_eq] at hk
  exact h (List.mem_map.mpr ⟨kv, hkv, hk⟩)

/-- The claim fold over distinct-keyed entries, all fresh for the
accumulator, is a plain append of the scalar claims in order. -/
theorem claims_foldl_entries (entries : List (String × JsonValue))
    (acc : List (String × String))
    (hnd : (entries.map Prod.fst).Nodup)
    (hdisj : ∀ kv ∈ entries, ("token." ++ kv.1) ∉ acc.map Prod.fst) :
    entries.foldl
      (fun acc2 kv =>
        match scalarString kv.2 with
        | some s => strAssign acc2 ("token." ++ kv.1) s
        | none => acc2) acc =
    acc ++ entries.filterMap (fun kv => (scalarString kv.2).map
      (fun s => ("token." ++ kv.1, s))) := by
  induction entries generalizing acc with
  | nil => simp
  | cons kv rest ih =>
    rw [List.foldl_cons, List.filterMap_cons]
    have hnd2 : (rest.map Prod.fst).Nodup := by
      rw [List.map_cons] at hnd
      exact hnd.of_cons
    have hhead : kv.1 ∉ rest.map Prod.fst := by
      rw [List.map_cons] at hnd
      exact (List.nodup_cons.mp hnd).1
    cases hs : scalarString kv.2 with
    | none =>
      simp only [hs, Option.map_none']
      rw [ih acc hnd2 (fun kv2 h2 => hdisj kv2 (List.mem_cons_of_mem _ h2))]
    | some s =>
      simp only [hs, Option.map_some']
      rw [strAssign_not_mem acc _ s (hdisj kv (List.mem_cons_self kv rest))]
      rw [ih (acc ++ [("token." ++ kv.1, s)]) hnd2 ?_]
      · simp
      · intro kv2 h2
        rw [List.map_append]
        intro hmem
        rcases List.mem_append.mp hmem with hmem1 | hmem1
        · exact hdisj kv2 (List.mem_cons_of_mem _ h2) hmem1
        · simp only [List.map_cons, List.map_nil, List.mem_singleton] at hmem1
          have : kv2.1 = kv.1 := string_append_left_cancel hmem1
          exact hhead (this ▸ List.mem_map.mpr ⟨kv2, h2, rfl⟩)

/-- Model of `addClaims` on a distinct-keyed object is the scalar-claims append. -/
theorem addClaims_obj (o : List (String × JsonValue)) (jwt : List (String × String))
    (hnd : (o.map Prod.fst).Nodup)
    (hdisj : ∀ kv ∈ o, ("token." ++ kv.1) ∉ jwt.map Prod.fst) :
    addClaims jwt (JsonValue.obj o) =
      jwt ++ o.filterMap (fun kv => (scalarString kv.2).map
        (fun s => ("token." ++ kv.1, s))) := by
  unfold addClaims
  exact claims_foldl_entries o jwt hnd hdisj

/-- A successful claim parse yields a distinct-keyed object. -/
theorem parseJWTClaims_obj_nodup {v : String} {o : List (String × JsonValue)}
    (h : parseJWTClaims v = some (JsonValue.obj o)) : (o.map Prod.fst).Nodup := by
  unfold parseJWTClaims at h
  dsimp only at h
  split at h
  · exact jsonParse_obj_nodup h
  · simp at h

/-- Claim **C3**: claim extraction from one authorization header value.  A value
that does not split into exactly 3 dot-separated segments parses to
nothing; whenever the parse fails the extracted claim record is empty (and
the function is total — nothing throws); when the padded, alphabet-swapped
middle segment decodes and parses to a JSON object, the extraction yields
exactly one `token.<key>` attribute per string/number/boolean claim of
that object, in order, dropping nested objects, arrays and nulls; and the
claim contribution of a header entry depends only on the lower-cased
header name, so the case of the header name is irrelevant. -/
theorem jwt_claim_extraction (value : String) :
    ((jsSplit '.' (stripBearer value)).length ≠ 3 → parseJWTClaims value = none) ∧
    (parseJWTClaims value = none → extractTokenClaims value = []) ∧
    (∀ o, parseJWTClaims value = some (JsonValue.obj o) →
      extractTokenClaims value =
        o.filterMap (fun kv => (scalarString kv.2).map (fun s => ("token." ++ kv.1, s)))) ∧
    (∀ sl acc k1 k2, k1.toLower = k2.toLower →
      (redactEntry sl acc (k1, value)).2 = (redactEntry sl acc (k2, value)).2) := by
  refine ⟨?_, ?_, ?_, ?_⟩
  · intro hlen
    unfold parseJWTClaims
    dsimp only
    rcases hp : jsSplit '.' (stripBearer value) with _ | ⟨a, _ | ⟨b, _ | ⟨c, _ | ⟨d, t⟩⟩⟩⟩
    · rfl
    · rfl
    · rfl
    · exact absurd (by rw [hp]; rfl) hlen
    · rfl
  · intro h
    unfold extractTokenClaims
    rw [h]
  · intro o hparse
    have hnd := parseJWTClaims_obj_nodup hparse
    unfold extractTokenClaims
    rw [hparse]
    show (if jsTruthy (JsonValue.obj o) = true then addClaims [] (JsonValue.obj o) else []) = _
    have ht : jsTruthy (JsonValue.obj o) = true := rfl
    rw [if_pos ht]
    rw [addClaims_obj o [] hnd (by simp)]
    simp
  · intro sl acc k1 k2 hkl
    unfold redactEntry
    dsimp only
    rw [apply_ite Prod.snd, apply_ite Prod.snd, hkl]

/-- Witness for C3 at a concrete bearer token whose payload is
`{"sub":"u1","n":5,"nested":{"a":1}}`: one attribute per scalar claim,
nested values dropped; and a 2-segment value yields nothing. -/
theorem jwt_claim_extraction_witness :
    extractTokenClaims
        "Bearer aaa.eyJzdWIiOiJ1MSIsIm4iOjUsIm5lc3RlZCI6eyJhIjoxfX0.bbb" =
      [("token.sub", "u1"), ("token.n", "5")] ∧
    parseJWTClaims "aaa.bbb" = none ∧ extractTokenClaims "aaa.bbb" = [] := by
  refine ⟨?_, ?_, ?_⟩
  · have h := (jwt_claim_extraction
      "Bearer aaa.eyJzdWIiOiJ1MSIsIm4iOjUsIm5lc3RlZCI6eyJhIjoxfX0.bbb").2.2.1
      [("sub", JsonValue.str "u1"), ("n", JsonValue.num "5"),
       ("nested", JsonValue.obj [("a", JsonValue.num "1")])] rfl
    rw [h]
    rfl
  · exact (jwt_claim_extraction "aaa.bbb").1 (by decide)
  · exact (jwt_claim_extraction "aaa.bbb").2.1
      ((jwt_claim_extraction "aaa.bbb").1 (by decide))

/-- Witness for C1 at a concrete header record with a mixed-case sensitive
name. -/
theorem redact_masks_witness :
    (redactSensitiveHeaders SENSITIVE_HEADERS
      [("Authorization", "token123"), ("content-type", "application/json")]).1 =
      [("Authorization", "[REDACTED]"), ("content-type", "application/json")] := by
  rw [redactSensitiveHeaders_masks_exactly_sensitive]
  simp only [toLower_eq_map]
  decide

/-- Witness for C10 at a concrete configuration. -/
theorem empty_body_sets_no_attribute_witness :
    Http.getClientRequestBody [] none = [] ∧
    Http.getClientResponseBody [] = none ∧
    "request.body" ∉
      opsKeys (Http.requestHookOps ⟨true, true⟩ none "api.example.com" [] [] none) ∧
    "response.body" ∉ opsKeys (Http.responseHookOps ⟨true, true⟩ "" [] []) :=
  empty_body_sets_no_attribute ⟨true, true⟩ none "api.example.com" "" [] []
